import Mathlib

/-!
Verification of the declarative schema / argument-binding core of nbodykit
(`nbodykit/utils/config.py`), shallowly embedded in Lean 4.

Python values are modelled by the inductive `Value`; ordered dictionaries
(`OrderedDict`, plain dicts, `argparse.Namespace` attribute sets) are
association lists that preserve insertion order; raised Python exceptions are
modelled by `Except PyExc`, where `PyExc` records the exception class and the
message.  Each definition mirrors the source function of the same name.
String primitives (`str.lower`, `str.split`, `int(...)` literal parsing) are
reimplemented structurally over character lists so that every definition
evaluates inside the kernel.
-/

set_option maxRecDepth 400000

/-- ASCII lower-casing of one character (`str.lower` acts per character). -/
def lowChar (c : Char) : Char :=
  if c.toNat ≥ 65 ∧ c.toNat ≤ 90 then Char.ofNat (c.toNat + 32) else c

/-- Python `s.lower()`. -/
def lowStr (s : String) : String := String.mk (s.data.map lowChar)

/-- Helper for `splitDots`: accumulates the current segment (reversed). -/
def splitDotsAux : List Char → List Char → List String
  | [], acc => [String.mk acc.reverse]
  | c :: rest, acc =>
      if c = '.' then String.mk acc.reverse :: splitDotsAux rest []
      else splitDotsAux rest (c :: acc)

/-- Python `name.split('.')`; always returns a non-empty list. -/
def splitDots (s : String) : List String := splitDotsAux s.data []

/-- Python `'.'.join(parts)`. -/
def joinDots (parts : List String) : String := String.intercalate "." parts

/-- Decimal digit value of a character, if it is a digit. -/
def digitVal (c : Char) : Option Nat :=
  if c.toNat ≥ 48 ∧ c.toNat ≤ 57 then some (c.toNat - 48) else Option.none

/-- Parse a non-empty all-digit character list as a natural number. -/
def parseDigits : List Char → Nat → Option Nat
  | [], acc => some acc
  | c :: rest, acc =>
      match digitVal c with
      | some d => parseDigits rest (acc * 10 + d)
      | Option.none => Option.none

/-- The integer accepted by Python `int(s)` for a string literal `s`
(optional sign followed by at least one decimal digit), if any. -/
def pyIntOfString (s : String) : Option Int :=
  match s.data with
  | [] => Option.none
  | '-' :: rest =>
      if rest = [] then Option.none
      else (parseDigits rest 0).map (fun n => -(n : Int))
  | '+' :: rest =>
      if rest = [] then Option.none
      else (parseDigits rest 0).map (fun n => (n : Int))
  | l => (parseDigits l 0).map (fun n => (n : Int))

/-- The Python exception classes that the config core can raise.
`configurationError` and `emptyConfigurationError` are the classes defined at
the top of `config.py`; the others are builtins. -/
inductive ExcKind where
  | configurationError
  | emptyConfigurationError
  | pluginParsingError
  | valueError
  | typeError
  | attributeError
  | keyError
  | indexError
  deriving DecidableEq, Repr

/-- A raised Python exception: its class together with its message
(`str(e)` for a single-argument exception). -/
structure PyExc where
  kind : ExcKind
  msg : String
  deriving DecidableEq, Repr

/-- Python values that flow through the config core: strings, integers,
booleans, lists, `None`, parsed YAML mappings (`dict`) and
`argparse.Namespace` attribute containers (`ns`).  Both kinds of mapping are
insertion-ordered association lists. -/
inductive Value where
  | str : String → Value
  | int : Int → Value
  | bool : Bool → Value
  | list : List Value → Value
  | dict : List (String × Value) → Value
  | ns : List (String × Value) → Value
  | none : Value

mutual
def beqValue : Value → Value → Bool
  | .str a, .str b => a == b
  | .int a, .int b => a == b
  | .bool a, .bool b => a == b
  | .list a, .list b => beqValueList a b
  | .dict a, .dict b => beqValuePairs a b
  | .ns a, .ns b => beqValuePairs a b
  | .none, .none => true
  | _, _ => false
def beqValueList : List Value → List Value → Bool
  | [], [] => true
  | a :: as, b :: bs => beqValue a b && beqValueList as bs
  | _, _ => false
def beqValuePairs : List (String × Value) → List (String × Value) → Bool
  | [], [] => true
  | (j, a) :: as, (k, b) :: bs => j == k && (beqValue a b && beqValuePairs as bs)
  | _, _ => false
end

mutual
theorem beqValue_iff : ∀ a b, beqValue a b = true ↔ a = b
  | .str _, .str _ => by simp [beqValue]
  | .int _, .int _ => by simp [beqValue]
  | .bool _, .bool _ => by simp [beqValue]
  | .list a, .list b => by simp [beqValue, beqValueList_iff a b]
  | .dict a, .dict b => by simp [beqValue, beqValuePairs_iff a b]
  | .ns a, .ns b => by simp [beqValue, beqValuePairs_iff a b]
  | .none, .none => by simp [beqValue]
  | .str _, .int _ | .str _, .bool _ | .str _, .list _ | .str _, .dict _
  | .str _, .ns _ | .str _, .none => by simp [beqValue]
  | .int _, .str _ | .int _, .bool _ | .int _, .list _ | .int _, .dict _
  | .int _, .ns _ | .int _, .none => by simp [beqValue]
  | .bool _, .str _ | .bool _, .int _ | .bool _, .list _ | .bool _, .dict _
  | .bool _, .ns _ | .bool _, .none => by simp [beqValue]
  | .list _, .str _ | .list _, .int _ | .list _, .bool _ | .list _, .dict _
  | .list _, .ns _ | .list _, .none => by simp [beqValue]
  | .dict _, .str _ | .dict _, .int _ | .dict _, .bool _ | .dict _, .list _
  | .dict _, .ns _ | .dict _, .none => by simp [beqValue]
  | .ns _, .str _ | .ns _, .int _ | .ns _, .bool _ | .ns _, .list _
  | .ns _, .dict _ | .ns _, .none => by simp [beqValue]
  | .none, .str _ | .none, .int _ | .none, .bool _ | .none, .list _
  | .none, .dict _ | .none, .ns _ => by simp [beqValue]
theorem beqValueList_iff : ∀ a b, beqValueList a b = true ↔ a = b
  | [], [] => by simp [beqValueList]
  | a :: as, b :: bs => by
      simp [beqValueList, beqValue_iff a b, beqValueList_iff as bs]
  | [], _ :: _ => by simp [beqValueList]
  | _ :: _, [] => by simp [beqValueList]
theorem beqValuePairs_iff : ∀ a b, beqValuePairs a b = true ↔ a = b
  | [], [] => by simp [beqValuePairs]
  | (j, a) :: as, (k, b) :: bs => by
      simp [beqValuePairs, beqValue_iff a b, beqValuePairs_iff as bs,
        Prod.ext_iff]
      tauto
  | [], _ :: _ => by simp [beqValuePairs]
  | _ :: _, [] => by simp [beqValuePairs]
end

instance : DecidableEq Value := fun a b => decidable_of_iff _ (beqValue_iff a b)

deriving instance DecidableEq for Except

/-- A parsed configuration document (mapping from key to value). -/
abbrev Doc := List (String × Value)

/-- An `argparse.Namespace`: attribute name to value, in assignment order. -/
abbrev NS := List (String × Value)

/-- `d[k]` lookup on an ordered dict: first binding of `k`, if any. -/
def dget : List (String × α) → String → Option α
  | [], _ => Option.none
  | (k₀, v) :: rest, k => if k₀ = k then some v else dget rest k

/-- `d[k] = v` on an ordered dict: replace in place if the key exists
(keeping its position), otherwise append at the end. -/
def dset : List (String × α) → String → α → List (String × α)
  | [], k, v => [(k, v)]
  | (k₀, v₀) :: rest, k, v =>
      if k₀ = k then (k, v) :: rest else (k₀, v₀) :: dset rest k v

/-- `d.pop(k)` / `del d[k]`: remove the first binding of `k`. -/
def derase : List (String × α) → String → List (String × α)
  | [], _ => []
  | (k₀, v₀) :: rest, k => if k₀ = k then rest else (k₀, v₀) :: derase rest k

/-- `list(d.keys())`. -/
def dkeys (d : List (String × α)) : List String := d.map Prod.fst

/-- `k in d` membership test on an ordered dict. -/
def dcontains (d : List (String × α)) (k : String) : Bool := (dkeys d).contains k

/-- `nargs` values accepted by the schema: an exact integer count, the
sentinel `'+'` (one or more), or the sentinel `'*'`. -/
inductive Nargs where
  | exact : Nat → Nargs
  | plus
  | star
  deriving DecidableEq, Repr

/-- The cast callables that appear as `type` entries of an `Argument`.
`pyInt`/`pyStr` model the builtins `int`/`str`; `constFn`/`failFn` model
arbitrary user-supplied callables that always succeed (with a fixed result)
or always raise. -/
inductive CastFn where
  | pyInt
  | pyStr
  | constFn : Value → CastFn
  | failFn : String → CastFn
  deriving DecidableEq

/-- The `type` field of an `Argument`: Python `None`, a single callable, or a
tuple of callables (whose entries may themselves be `None`). -/
inductive TypeSpec where
  | none
  | single : CastFn → TypeSpec
  | tuple : List (Option CastFn) → TypeSpec
  deriving DecidableEq

/-- One schema entry, mirroring the `Argument` namedtuple of `config.py`:
`name` is the full dotted path, `subfields` the ordered children.
A Python `help` of `None` is `Option.none`; the namedtuple default `""` is
`some ""`. -/
inductive Argument where
  | mk : (name : String) → (required : Bool) → (type : TypeSpec) →
      (default : Value) → (choices : Option (List Value)) →
      (nargs : Option Nargs) → (help : Option String) →
      (subfields : List (String × Argument)) → Argument

def Argument.name : Argument → String
  | .mk n _ _ _ _ _ _ _ => n

def Argument.required : Argument → Bool
  | .mk _ r _ _ _ _ _ _ => r

def Argument.type : Argument → TypeSpec
  | .mk _ _ t _ _ _ _ _ => t

def Argument.default : Argument → Value
  | .mk _ _ _ d _ _ _ _ => d

def Argument.choices : Argument → Option (List Value)
  | .mk _ _ _ _ c _ _ _ => c

def Argument.nargs : Argument → Option Nargs
  | .mk _ _ _ _ _ na _ _ => na

def Argument.help : Argument → Option String
  | .mk _ _ _ _ _ _ h _ => h

def Argument.subfields : Argument → List (String × Argument)
  | .mk _ _ _ _ _ _ _ s => s

/-- `arg._replace(subfields := s)`. -/
def Argument.withSubfields : Argument → List (String × Argument) → Argument
  | .mk n r t d c na h _, s => .mk n r t d c na h s

mutual
def beqArgument : Argument → Argument → Bool
  | .mk n₁ r₁ t₁ d₁ c₁ na₁ h₁ s₁, .mk n₂ r₂ t₂ d₂ c₂ na₂ h₂ s₂ =>
      n₁ == n₂ && (r₁ == r₂ && (decide (t₁ = t₂) && (decide (d₁ = d₂) &&
        (decide (c₁ = c₂) && (decide (na₁ = na₂) && (h₁ == h₂ &&
          beqArgPairs s₁ s₂))))))
def beqArgPairs : List (String × Argument) → List (String × Argument) → Bool
  | [], [] => true
  | (j, a) :: as, (k, b) :: bs => j == k && (beqArgument a b && beqArgPairs as bs)
  | _, _ => false
end

mutual
theorem beqArgument_iff : ∀ a b, beqArgument a b = true ↔ a = b
  | .mk n₁ r₁ t₁ d₁ c₁ na₁ h₁ s₁, .mk n₂ r₂ t₂ d₂ c₂ na₂ h₂ s₂ => by
      simp [beqArgument, beqArgPairs_iff s₁ s₂, Argument.mk.injEq]
theorem beqArgPairs_iff : ∀ a b, beqArgPairs a b = true ↔ a = b
  | [], [] => by simp [beqArgPairs]
  | (j, a) :: as, (k, b) :: bs => by
      simp [beqArgPairs, beqArgument_iff a b, beqArgPairs_iff as bs,
        Prod.ext_iff]
      tauto
  | [], _ :: _ => by simp [beqArgPairs]
  | _ :: _, [] => by simp [beqArgPairs]
end

instance : DecidableEq Argument := fun a b =>
  decidable_of_iff _ (beqArgument_iff a b)

/-- A `ConstructorSchema`: the top-level ordered mapping from local name to
`Argument` (the free-text `description` plays no role in any claim and is
omitted from the model). -/
abbrev Schema := List (String × Argument)

mutual
/-- Python `repr` of a value (strings quoted, containers bracketed). -/
def pyReprOf : Value → String
  | .str s => "\x27" ++ s ++ "\x27"
  | .int n => toString n
  | .bool b => if b then "True" else "False"
  | .list l => "[" ++ pyReprSeq l ++ "]"
  | .dict d => "\x7b" ++ pyReprDictItems d ++ "\x7d"
  | .ns d => "Namespace(" ++ pyReprKwItems d ++ ")"
  | .none => "None"
def pyReprSeq : List Value → String
  | [] => ""
  | [v] => pyReprOf v
  | v :: rest => pyReprOf v ++ ", " ++ pyReprSeq rest
def pyReprDictItems : List (String × Value) → String
  | [] => ""
  | [(k, v)] => "\x27" ++ k ++ "\x27: " ++ pyReprOf v
  | (k, v) :: rest => "\x27" ++ k ++ "\x27: " ++ pyReprOf v ++ ", " ++ pyReprDictItems rest
def pyReprKwItems : List (String × Value) → String
  | [] => ""
  | [(k, v)] => k ++ "=" ++ pyReprOf v
  | (k, v) :: rest => k ++ "=" ++ pyReprOf v ++ ", " ++ pyReprKwItems rest
end

/-- Python `str` of a value (identity on strings, `repr` elsewhere). -/
def pyStrOf : Value → String
  | .str s => s
  | v => pyReprOf v

/-- `str` applied to a Python list of strings, e.g. `['a.b', 'c']`. -/
def pyReprStrList (xs : List String) : String :=
  "[" ++ String.intercalate ", " (xs.map (fun s => "\x27" ++ s ++ "\x27")) ++ "]"

/-- Run one cast callable on a value, mirroring the Python builtins:
`int` parses string literals and converts bools/ints but rejects everything
else; `str` always succeeds. -/
def CastFn.run : CastFn → Value → Except PyExc Value
  | .pyInt, .int n => .ok (.int n)
  | .pyInt, .bool b => .ok (.int (if b then 1 else 0))
  | .pyInt, .str s =>
      match pyIntOfString s with
      | some n => .ok (.int n)
      | Option.none => .error ⟨.valueError,
          "invalid literal for int() with base 10: \x27" ++ s ++ "\x27"⟩
  | .pyInt, v => .error ⟨.typeError,
      "int() argument must be a string or a number, not " ++ pyReprOf v⟩
  | .pyStr, v => .ok (.str (pyStrOf v))
  | .constFn v, _ => .ok v
  | .failFn m, _ => .error ⟨.valueError, m⟩

/-- `isinstance(value, list)`. -/
def Value.isList : Value → Bool
  | .list _ => true
  | _ => false

/-- `len(value)` for the (always list-shaped) value reaching the `nargs`
length checks of `ConstructorSchema.cast`. -/
def Value.pyLen : Value → Nat
  | .list l => l.length
  | .str s => s.length
  | .dict d => d.length
  | .ns d => d.length
  | _ => 0

namespace ConstructorSchema

/-- The opening lines of `ConstructorSchema.cast`: wrap a non-list value in a
one-element list when `nargs` is not `None`, then enforce the exact-count and
one-or-more cardinality checks. -/
def nargs_check (arg : Argument) (value : Value) : Except PyExc Value :=
  let value := if arg.nargs ≠ Option.none ∧ ¬ value.isList
    then Value.list [value] else value
  match arg.nargs with
  | some (.exact n) =>
      if value.pyLen ≠ n then
        .error ⟨.valueError, "\x27" ++ arg.name ++ "\x27 requires exactly " ++
          toString n ++ " arguments"⟩
      else .ok value
  | some .plus =>
      if value.pyLen = 0 then
        .error ⟨.valueError, "\x27" ++ arg.name ++
          "\x27 requires at least one argument"⟩
      else .ok value
  | _ => .ok value

/-- The list comprehension `[cast(v) for v in value]`: elementwise casting,
failing at the first failing element. -/
def cast_elems (f : CastFn) : List Value → Except PyExc (List Value)
  | [] => .ok []
  | v :: rest =>
      match f.run v with
      | .error e => .error e
      | .ok r =>
          match cast_elems f rest with
          | .error e => .error e
          | .ok rs => .ok (r :: rs)

/-- The inner `cast1` closure of `ConstructorSchema.cast`: a `None` cast is
the identity; otherwise apply the callable, elementwise when `arg.nargs` is
not `None` (the value is a list by then, having been wrapped by the caller). -/
def cast1 (arg : Argument) (value : Value) : Option CastFn → Except PyExc Value
  | Option.none => .ok value
  | some f =>
      match arg.nargs with
      | some _ =>
          match value with
          | .list l =>
              match cast_elems f l with
              | .error e => .error e
              | .ok rs => .ok (.list rs)
          | v => f.run v
      | Option.none => f.run value

/-- The tuple of cast functions tried by `ConstructorSchema.cast`: a `None`
or single-callable `type` becomes a one-element tuple. -/
def castTuple : TypeSpec → List (Option CastFn)
  | .none => [Option.none]
  | .single f => [some f]
  | .tuple fs => fs

/-- The fallback loop of `ConstructorSchema.cast`: every cast except the last
is tried and any failure silently skipped; the last cast's outcome is
returned as is (`casts[-1]` on an empty tuple is an `IndexError`). -/
def tryCasts (arg : Argument) (value : Value) : List (Option CastFn) → Except PyExc Value
  | [] => .error ⟨.indexError, "tuple index out of range"⟩
  | [c] => cast1 arg value c
  | c :: rest =>
      match cast1 arg value c with
      | .ok r => .ok r
      | .error _ => tryCasts arg value rest

/-- `ConstructorSchema.cast(arg, value)`. -/
def cast (arg : Argument) (value : Value) : Except PyExc Value :=
  match nargs_check arg value with
  | .error e => .error e
  | .ok value => tryCasts arg value (castTuple arg.type)

end ConstructorSchema

/-- `case_insensitive_name_match(schema_name, config)`: the first key of
`config` equal to `schema_name` up to lower-casing, if any. -/
def case_insensitive_name_match (schema_name : String) (config : Doc) : Option String :=
  (config.map Prod.fst).find? (fun k => lowStr k = lowStr schema_name)

/-- `traceback.format_exc()` as interpolated into the leaf cast-failure
message of `fill_namespace` (the details of the traceback text are irrelevant
to every claim; only the exception text is modelled). -/
def traceback_format_exc (e : PyExc) : String :=
  "Traceback (most recent call last): " ++ e.msg

/-- The Python type name of a value (for error messages). -/
def pyTypeName : Value → String
  | .str _ => "str"
  | .int _ => "int"
  | .bool _ => "bool"
  | .list _ => "list"
  | .dict _ => "dict"
  | .ns _ => "Namespace"
  | .none => "NoneType"

mutual
/-- `fill_namespace(ns, arg, config, missing)`.  The Python function mutates
`ns`, `config` and `missing` in place; the model threads all three and
returns their final states (or the raised exception).  `config` is `None` or
an arbitrary document value, exactly as in the source, where a missing
sub-document is passed down as `None`. -/
def fill_namespace : NS → Argument → Option Value → List String →
    Except PyExc (NS × Option Value × List String)
  | ns, .mk nm rq ty df ch na hp subs, config, missing =>
    let arg : Argument := .mk nm rq ty df ch na hp subs
    let schema_name := (splitDots nm).getLastD ""
    if subs = [] then
      match config with
      | Option.none => .ok (ns, config, missing)
      | some (.dict cfg) =>
          match case_insensitive_name_match schema_name cfg with
          | some config_match =>
              -- `value = config.pop(config_match)`: read the value and
              -- remove the binding, then cast
              match ConstructorSchema.cast arg
                  ((dget cfg config_match).getD Value.none) with
              | .ok v =>
                  .ok (dset ns schema_name v,
                    some (.dict (derase cfg config_match)), missing)
              | .error e =>
                  .error ⟨.configurationError, "unable to cast \x27" ++
                    nm ++ "\x27 value: " ++ traceback_format_exc e⟩
          | Option.none =>
              if rq then
                .ok (ns, some (.dict cfg), missing ++ [nm])
              else .ok (ns, some (.dict cfg), missing)
      -- a non-dict document has no `.keys()`: `case_insensitive_name_match`
      -- raises AttributeError
      | some v => .error ⟨.attributeError, "\x27" ++ pyTypeName v ++
          "\x27 object has no attribute \x27keys\x27"⟩
    else
      match config with
      -- `config.pop` on `None`
      | Option.none => .error ⟨.attributeError,
          "\x27NoneType\x27 object has no attribute \x27pop\x27"⟩
      | some (.dict cfg) =>
          -- `subconfig = config.pop(schema_name, None)`
          match fill_subfields [] subs (dget cfg schema_name) missing with
          | .error e => .error e
          | .ok (subns, _, missing) =>
              if subns.length ≠ 0 then
                match ConstructorSchema.cast arg (.ns subns) with
                | .ok v => .ok (dset ns schema_name v,
                    some (.dict (derase cfg schema_name)), missing)
                | .error e => .error ⟨.configurationError,
                    "unable to cast \x27" ++ nm ++ "\x27 value: " ++ e.msg⟩
              else .ok (ns, some (.dict (derase cfg schema_name)), missing)
      -- `.pop(name, None)` on a list is a TypeError, on anything else an
      -- AttributeError
      | some (.list _) => .error ⟨.typeError,
          "pop expected at most 1 argument, got 2"⟩
      | some v => .error ⟨.attributeError, "\x27" ++ pyTypeName v ++
          "\x27 object has no attribute \x27pop\x27"⟩

/-- The `for k in arg.subfields: fill_namespace(subns, arg[k], subconfig,
missing)` loop: children are filled in declaration order, sharing the same
sub-document and missing list. -/
def fill_subfields : NS → List (String × Argument) → Option Value →
    List String → Except PyExc (NS × Option Value × List String)
  | ns, [], config, missing => .ok (ns, config, missing)
  | ns, (_, a) :: rest, config, missing =>
      match fill_namespace ns a config missing with
      | .error e => .error e
      | .ok (ns, config, missing) => fill_subfields ns rest config missing
end

/-- `d[k] = f(d[k])` update of an existing binding in place. -/
def dmodify : List (String × α) → String → (α → α) → List (String × α)
  | [], _, _ => []
  | (k₀, v) :: rest, k, f =>
      if k₀ = k then (k₀, f v) :: rest else (k₀, v) :: dmodify rest k f

/-- The loop of `ConstructorSchema.contains`: for every prefix segment `k`
the source evaluates `self[k].subfields` — indexing the *top-level* schema
`self` each time, never the previously reached subfields — keeping only the
last result.  A segment absent from the top level raises `KeyError`
(`str(KeyError(k))` is the quoted key). -/
def contains_walk (s : Schema) : List String → List (String × Argument) →
    Except PyExc (List (String × Argument))
  | [], obj => .ok obj
  | k :: rest, _ =>
      match dget s k with
      | Option.none => .error ⟨.keyError, "\x27" ++ k ++ "\x27"⟩
      | some a => contains_walk s rest a.subfields

/-- `ConstructorSchema.contains(key)`. -/
def ConstructorSchema.contains (s : Schema) (key : String) : Except PyExc Bool :=
  let split := splitDots key
  let pfx := split.dropLast
  let name := split.getLastD ""
  match contains_walk s pfx s with
  | .error e => .error e
  | .ok obj => .ok (dcontains obj name)

/-- The first loop of `ConstructorSchema.add_argument`: walk the dotted
prefix, creating any missing intermediate entry as
`Argument('.'.join(prefix[:i+1]), required)` — i.e. with the *caller's*
`required` flag and all other fields at their namedtuple defaults — and
descend into its subfields. -/
def create_parents (obj : List (String × Argument)) (pfx : List String)
    (path : List String) (required : Bool) : List (String × Argument) :=
  match pfx with
  | [] => obj
  | k :: rest =>
      let obj := if dcontains obj k then obj
        else dset obj k (Argument.mk (joinDots (path ++ [k])) required
          .none .none Option.none Option.none (some "") [])
      dmodify obj k (fun a =>
        a.withSubfields (create_parents a.subfields rest (path ++ [k]) required))

/-- Descend the (already created) dotted prefix and rewrite the innermost
subfields mapping with `op`. -/
def set_leaf (obj : List (String × Argument)) (pfx : List String)
    (op : List (String × Argument) → Except PyExc (List (String × Argument))) :
    Except PyExc (List (String × Argument)) :=
  match pfx with
  | [] => op obj
  | k :: rest =>
      match dget obj k with
      | Option.none => .error ⟨.keyError, "\x27" ++ k ++ "\x27"⟩
      | some a =>
          match set_leaf a.subfields rest op with
          | .error e => .error e
          | .ok sub => .ok (dset obj k (a.withSubfields sub))

/-- `ConstructorSchema.add_argument(name, type, default, choices, nargs,
help, required)`: create missing parents, then insert a fresh leaf when
`contains(name)` is false, otherwise `_replace` the existing entry (keeping
its `name` and `subfields`).  In Python a `KeyError` escaping from `contains`
aborts the call (the already-inserted parents stay, since the schema is
mutated in place; the model returns only the raised error). -/
def ConstructorSchema.add_argument (s : Schema) (name : String)
    (type : TypeSpec) (default : Value) (choices : Option (List Value))
    (nargs : Option Nargs) (help : Option String) (required : Bool) :
    Except PyExc Schema :=
  let split := splitDots name
  let pfx := split.dropLast
  let suffix := split.getLastD ""
  let s := create_parents s pfx [] required
  match ConstructorSchema.contains s name with
  | .error e => .error e
  | .ok c =>
      if ¬ c then
        set_leaf s pfx (fun obj =>
          .ok (dset obj suffix (Argument.mk name required type default choices nargs help [])))
      else
        set_leaf s pfx (fun obj =>
          match dget obj suffix with
          | Option.none => .error ⟨.keyError, "\x27" ++ suffix ++ "\x27"⟩
          | some old => .ok (dset obj suffix (Argument.mk old.name required
              type default choices nargs help old.subfields)))

/-- The plugin-loading step of `ReadConfigFile`: when the reserved key `X`
is present, its value (a bare string is treated as a one-element list) is
dispatched entry by entry to the external plugin loader — a pure side effect
outside this model — and the key is removed from the document. -/
def popPlugins (d : Doc) : Except PyExc Doc :=
  if dcontains d "X" then
    match (dget d "X").getD .none with
    | .str _ => .ok (derase d "X")
    | .list _ => .ok (derase d "X")
    | .dict _ => .ok (derase d "X")
    | v => .error ⟨.typeError, "\x27" ++ pyTypeName v ++ "\x27 object is not iterable"⟩
  else .ok d

/-- The cosmology step of `ReadConfigFile`: when the reserved key `cosmo` is
present, `Cosmology(**config.pop('cosmo'))` is constructed and registered as
ambient state by external collaborators; only the document mutation and the
mapping requirement of `**` are modelled. -/
def popCosmo (d : Doc) : Except PyExc Doc :=
  if dcontains d "cosmo" then
    match (dget d "cosmo").getD .none with
    | .dict _ => .ok (derase d "cosmo")
    | _ => .error ⟨.typeError, "argument after ** must be a mapping"⟩
  else .ok d

/-- The `for name in schema: fill_namespace(ns, schema[name], extra, missing)`
loop of `ReadConfigFile`, threading the shared namespace, document and
missing list through every top-level entry. -/
def fill_config_loop : Schema → NS → Option Value → List String →
    Except PyExc (NS × Option Value × List String)
  | [], ns, config, missing => .ok (ns, config, missing)
  | (_, a) :: rest, ns, config, missing =>
      match fill_namespace ns a config missing with
      | .error e => .error e
      | .ok (ns, config, missing) => fill_config_loop rest ns config missing

/-- `for k in extra: setattr(unknown, k, extra[k])`. -/
def build_unknown (extra : Doc) : NS :=
  extra.foldl (fun u p => dset u p.1 p.2) []

/-- `ReadConfigFile(config_stream, schema)`.  YAML parsing is out of scope:
`config` is the already-parsed document value.  A parse result that is a
bare string or `None` is the empty-configuration error; plugin loading and
cosmology construction are delegated to external collaborators (modelled by
`popPlugins` / `popCosmo`); then every top-level schema entry fills the
shared namespace, the unconsumed keys become `unknown`, and a non-empty
missing list raises `ValueError` listing every collected dotted name. -/
def ReadConfigFile (config : Value) (schema : Schema) : Except PyExc (NS × NS) :=
  match config with
  | .str _ => .error ⟨.emptyConfigurationError, "no valid keys found"⟩
  | .none => .error ⟨.emptyConfigurationError, "no valid keys found"⟩
  | .dict d =>
      match popPlugins d with
      | .error e => .error e
      | .ok d =>
          match popCosmo d with
          | .error e => .error e
          | .ok d =>
              match fill_config_loop schema [] (some (.dict d)) [] with
              | .error e => .error e
              | .ok (ns, config, missing) =>
                  -- in Python `extra` is the same dict object the filler
                  -- drained; `fill_config_loop` always returns a dict here
                  let extra := match config with
                    | some (.dict d) => d
                    | _ => []
                  let unknown := build_unknown extra
                  if missing.length ≠ 0 then
                    .error ⟨.valueError, "missing required arguments: " ++
                      pyReprStrList missing⟩
                  else .ok (ns, unknown)
  -- `'X' in config` on any other parse result (e.g. a bare list) is outside
  -- every claim; the YAML loader only returns mappings, strings or None
  | v => .error ⟨.typeError, "argument of type \x27" ++ pyTypeName v ++
      "\x27 is not a mapping"⟩

/-- `check_choices(schema, attr, val)`: when `attr` is a top-level schema
entry with a `choices` list, a value outside it raises `ValueError`. -/
def check_choices (schema : Schema) (attr : String) (val : Value) :
    Except PyExc Unit :=
  match dget schema attr with
  | Option.none => .ok ()
  | some arg =>
      match arg.choices with
      | Option.none => .ok ()
      | some cs =>
          if ¬ cs.contains val then
            .error ⟨.valueError, "valid choices for \x27" ++ arg.name ++
              "\x27 are: \x27" ++ pyStrOf (.list cs) ++ "\x27"⟩
          else .ok ()

/-- One entry of the `update_schema` loop: recompute `required` as
membership of `a.name` in the signature's required names, and overwrite
`default` with the signature default when `a.name` is a defaulted
parameter (`defaults[default_names.index(a.name)]`). -/
def upd_entry (required_names default_names : List String)
    (defaults : List Value) : String × Argument → Except PyExc (String × Argument)
  | (key, a) =>
      let rq := required_names.contains a.name
      if default_names.contains a.name then
        match defaults.get? (default_names.indexOf a.name) with
        | some dv => .ok (key, Argument.mk a.name rq a.type dv a.choices
            a.nargs a.help a.subfields)
        | Option.none => .error ⟨.indexError, "list index out of range"⟩
      else
        .ok (key, Argument.mk a.name rq a.type a.default a.choices a.nargs
          a.help a.subfields)

/-- The body loop of `update_schema`: update every entry in order while
collecting the `extra` names (entries neither in the signature nor allowed)
and draining the `missing` list (one removal per matching entry). -/
def update_loop (required_names default_names : List String)
    (defaults : List Value) (args allowed : List String) :
    List (String × Argument) → List String →
    Except PyExc (List (String × Argument) × List String × List String)
  | [], missing => .ok ([], [], missing)
  | p :: rest, missing =>
      match upd_entry required_names default_names defaults p with
      | .error e => .error e
      | .ok p₁ =>
          let nm := p.2.name
          if ¬ args.contains nm ∧ ¬ allowed.contains nm then
            match update_loop required_names default_names defaults args
                allowed rest missing with
            | .error e => .error e
            | .ok (entries, extra, missing) => .ok (p₁ :: entries, nm :: extra, missing)
          else
            let missing := if missing.contains nm then missing.erase nm else missing
            match update_loop required_names default_names defaults args
                allowed rest missing with
            | .error e => .error e
            | .ok (entries, extra, missing) => .ok (p₁ :: entries, extra, missing)

/-- One `new_schema[a] = func.schema[a]` copy step of the reordering pass
(a no-op when `a` is not in the updated schema). -/
def reorder_step (entries : List (String × Argument))
    (acc : List (String × Argument)) (a : String) : List (String × Argument) :=
  match dget entries a with
  | some v => dset acc a v
  | Option.none => acc

/-- The reordering step of `update_schema`: rebuild the schema in signature
order (`for a in args`) and then append the allowed ambient names
(`for p in allowed`), each copied from the updated schema when present. -/
def reorder_schema (entries : List (String × Argument)) (args allowed : List String) :
    List (String × Argument) :=
  allowed.foldl (reorder_step entries) (args.foldl (reorder_step entries) [])

/-- `update_schema(func, attrs, defaults, allowed)`: reconcile the schema
attached to a constructor against its signature (`attrs` includes the
implicit `self`; `defaults` aligns with the trailing parameters).  The final
docstring update of the source is a pure formatting side effect and is not
modelled. -/
def update_schema (schema : Schema) (attrs : List String)
    (defaults : List Value) (allowed : List String) : Except PyExc Schema :=
  let args := attrs.drop 1
  let required_names := if defaults.length ≠ 0
    then args.take (args.length - defaults.length) else args
  let default_names := if defaults.length ≠ 0
    then args.drop (args.length - defaults.length) else []
  let missing₀ := default_names ++ required_names
  match update_loop required_names default_names defaults args allowed
      schema missing₀ with
  | .error e => .error e
  | .ok (entries, extra, missing) =>
      if missing.length ≠ 0 then
        .error ⟨.valueError, "missing arguments in schema : " ++
          pyReprStrList missing ++ " "⟩
      else if extra.length ≠ 0 then
        .error ⟨.valueError, "extra arguments in schema : " ++
          pyReprStrList extra⟩
      else
        let schema_keys := (dkeys entries).filter (fun k => args.contains k)
        if schema_keys ≠ args then .ok (reorder_schema entries args allowed)
        else .ok entries

/-- Keep-first-occurrence deduplication: the model of building a CPython
`set` from a list and listing it (CPython's set iteration order is
unspecified; the model fixes first-occurrence order). -/
def pydedupGo : List String → List String → List String
  | [], _ => []
  | x :: rest, seen =>
      if seen.contains x then pydedupGo rest seen
      else x :: pydedupGo rest (x :: seen)

def pydedup (l : List String) : List String := pydedupGo l []

/-- `list(set(posargs.keys()) & set(kwargs.keys()))`. -/
def duplicated_arguments (posargs kwargs : NS) : List String :=
  pydedup ((dkeys posargs).filter (fun k => (dkeys kwargs).contains k))

/-- The required schema names supplied neither positionally nor by
keyword. -/
def missing_arguments (schema : Schema) (posargs kwargs : NS) : List String :=
  let required := (schema.filter (fun p => p.2.required)).map Prod.fst
  required.filter (fun r =>
    ¬ (dkeys posargs).contains r ∧ ¬ (dkeys kwargs).contains r)

/-- The supplied names (`set(posargs) | set(kwargs)`) absent from the
schema. -/
def extra_arguments (schema : Schema) (posargs kwargs : NS) : List String :=
  (pydedup (dkeys posargs ++ dkeys kwargs)).filter (fun k => ¬ dcontains schema k)

/-- Python `s.ljust(n)` / the `%-25s` format: pad with spaces on the right
to the given width. -/
def ljust (s : String) (n : Nat) : String :=
  s ++ String.mk (List.replicate (n - s.data.length) ' ')

/-- `get_init_errmsg(schema, posargs, kwargs)`. -/
def get_init_errmsg (schema : Schema) (posargs kwargs : NS) : String :=
  let errmsg := ""
  let dup := duplicated_arguments posargs kwargs
  let errmsg := if dup.length ≠ 0 then
    errmsg ++ "\t" ++ ljust "duplicated arguments" 25 ++ ": " ++
      pyReprStrList dup ++ "\n" else errmsg
  let mis := missing_arguments schema posargs kwargs
  let errmsg := if mis.length ≠ 0 then
    errmsg ++ "\t" ++ ljust "missing arguments" 25 ++ ": " ++
      pyReprStrList mis ++ "\n" else errmsg
  let ext := extra_arguments schema posargs kwargs
  let errmsg := if ext.length ≠ 0 then
    errmsg ++ "\t" ++ ljust "extra arguments" 25 ++ ": " ++
      pyReprStrList ext ++ "\n" else errmsg
  errmsg

def dashes75 : String := String.mk (List.replicate 75 '-')

/-- The enriched message the `autoassign` wrapper installs on the caught
exception (`e.args = (msg,)`) before re-raising it. -/
def autoassign_errmsg (clsName : String) (e : PyExc) (errmsg : String) : String :=
  "\n" ++ dashes75 ++ "\n" ++
  "error initializing __init__ for \x27" ++ clsName ++ "\x27:\n" ++
  "\t" ++ ljust "original error message" 25 ++ ": \x27" ++ e.msg ++ "\x27\n" ++
  (if errmsg.length ≠ 0 then errmsg ++ "\n" else "") ++
  dashes75 ++ "\n"

/-- The `for k in allowed: if k in kwargs: setattr(self, k, kwargs.pop(k))`
loop of the wrapper. -/
def pop_allowed (self kwargs : NS) (allowed : List String) : NS × NS :=
  allowed.foldl (fun (p : NS × NS) k =>
    if dcontains p.2 k then
      (dset p.1 k ((dget p.2 k).getD .none), derase p.2 k)
    else p) (self, kwargs)

/-- `for attr, val in zip(reversed(attrs), reversed(defaults)):
setattr(self, attr, val)` — `attrs` still includes `self`. -/
def apply_defaults (self : NS) (attrs : List String) (defaults : List Value) : NS :=
  (attrs.reverse.zip defaults.reverse).foldl (fun ns p => dset ns p.1 p.2) self

/-- The positional-binding loop: each positional value is choice-checked,
recorded in `posargs` and set on the instance. -/
def bind_positional (schema : Schema) : NS → NS → List String → List Value →
    Except PyExc (NS × NS)
  | self, posargs, attr :: attrs, val :: vals =>
      match check_choices schema attr val with
      | .error e => .error e
      | .ok _ => bind_positional schema (dset self attr val)
          (dset posargs attr val) attrs vals
  | self, posargs, _, _ => .ok (self, posargs)

/-- The keyword-binding loop: each keyword value is choice-checked and set
on the instance. -/
def bind_keywords (schema : Schema) : NS → NS → Except PyExc NS
  | self, [] => .ok self
  | self, (k, v) :: rest =>
      match check_choices schema k v with
      | .error e => .error e
      | .ok _ => bind_keywords schema (dset self k v) rest

/-- Everything the `autoassign` wrapper does before calling the real
`init`: ambient attachment (`ambComm`/`ambCosmo` stand for
`attach_comm`/`attach_cosmo` together with the external ambient handles),
allowed-keyword popping, defaults, positional binding (with `posargs`
recording), varargs, keyword binding.  Returns the instance state, the
recorded `posargs` and the drained `kwargs`. -/
def bind_phase (schema : Schema) (attrs : List String) (defaults : List Value)
    (varargs : Option String) (allowed : List String)
    (ambComm ambCosmo : Option Value) (self : NS) (args : List Value)
    (kwargs : NS) : Except PyExc (NS × NS × NS) :=
  let self := match ambComm with
    | some v => dset self "comm" v
    | Option.none => self
  let self := match ambCosmo with
    | some v => dset self "cosmo" v
    | Option.none => self
  let pk := pop_allowed self kwargs allowed
  let self := apply_defaults pk.1 attrs defaults
  let kwargs := pk.2
  let positional_attrs := attrs.drop 1
  match bind_positional schema self [] positional_attrs args with
  | .error e => .error e
  | .ok (self, posargs) =>
      let self := match varargs with
        | some vname => dset self vname (.list (args.drop positional_attrs.length))
        | Option.none => self
      match bind_keywords schema self kwargs with
      | .error e => .error e
      | .ok self => .ok (self, posargs, kwargs)

/-- The call-time `wrapper(self, *args, **kwargs)` produced by `autoassign`:
run the binding phase, call the real `init` (modelled as a function of the
prepared instance, the original positional arguments and the drained keyword
arguments), and on failure re-raise the same exception — identical class —
with its message replaced by the enriched diagnostic block. -/
def autoassign_wrapper (clsName : String) (schema : Schema)
    (attrs : List String) (defaults : List Value) (varargs : Option String)
    (allowed : List String) (ambComm ambCosmo : Option Value)
    (init : NS → List Value → NS → Except PyExc NS) (self : NS)
    (args : List Value) (kwargs : NS) : Except PyExc NS :=
  match bind_phase schema attrs defaults varargs allowed ambComm ambCosmo
      self args kwargs with
  | .error e => .error e
  | .ok (self, posargs, kwargs) =>
      match init self args kwargs with
      | .ok r => .ok r
      | .error e => .error ⟨e.kind,
          autoassign_errmsg clsName e (get_init_errmsg schema posargs kwargs)⟩

/-- Whether a cast attempt raised. -/
def castFails (r : Except PyExc Value) : Bool :=
  match r with
  | .error _ => true
  | .ok _ => false

theorem tryCasts_cons_of_fail (arg : Argument) (v : Value) (c : Option CastFn)
    (rest : List (Option CastFn)) (hrest : rest ≠ [])
    (hf : castFails (ConstructorSchema.cast1 arg v c) = true) :
    ConstructorSchema.tryCasts arg v (c :: rest) =
      ConstructorSchema.tryCasts arg v rest := by
  cases rest with
  | nil => exact absurd rfl hrest
  | cons c₂ r =>
      cases hc : ConstructorSchema.cast1 arg v c with
      | ok w => rw [hc] at hf; simp [castFails] at hf
      | error e => simp [ConstructorSchema.tryCasts, hc]

theorem tryCasts_cons_of_ok (arg : Argument) (v r : Value) (c : Option CastFn)
    (rest : List (Option CastFn)) (hrest : rest ≠ [])
    (hok : ConstructorSchema.cast1 arg v c = .ok r) :
    ConstructorSchema.tryCasts arg v (c :: rest) = .ok r := by
  cases rest with
  | nil => exact absurd rfl hrest
  | cons c₂ t => simp [ConstructorSchema.tryCasts, hok]

theorem tryCasts_all_fail (arg : Argument) (v : Value) (c : Option CastFn) :
    ∀ cs₁ : List (Option CastFn),
    (∀ c₁ ∈ cs₁, castFails (ConstructorSchema.cast1 arg v c₁) = true) →
    ConstructorSchema.tryCasts arg v (cs₁ ++ [c]) =
      ConstructorSchema.cast1 arg v c
  | [], _ => by simp [ConstructorSchema.tryCasts]
  | c₁ :: t, h => by
      rw [List.cons_append,
        tryCasts_cons_of_fail arg v c₁ (t ++ [c]) (by simp) (h c₁ (by simp))]
      exact tryCasts_all_fail arg v c t (fun x hx => h x (by simp [hx]))

theorem tryCasts_first_ok (arg : Argument) (v r : Value) (c : Option CastFn)
    (cs₂ : List (Option CastFn)) (h₂ : cs₂ ≠ [])
    (hok : ConstructorSchema.cast1 arg v c = .ok r) :
    ∀ cs₁ : List (Option CastFn),
    (∀ c₁ ∈ cs₁, castFails (ConstructorSchema.cast1 arg v c₁) = true) →
    ConstructorSchema.tryCasts arg v (cs₁ ++ c :: cs₂) = .ok r
  | [], _ => by
      rw [List.nil_append]
      exact tryCasts_cons_of_ok arg v r c cs₂ h₂ hok
  | c₁ :: t, h => by
      rw [List.cons_append,
        tryCasts_cons_of_fail arg v c₁ (t ++ c :: cs₂) (by simp) (h c₁ (by simp))]
      exact tryCasts_first_ok arg v r c cs₂ h₂ hok t (fun x hx => h x (by simp [hx]))

/-- The argument used in the spec's fallback-casting example: cast
candidates `(int, str)`. -/
def c3_arg_int_str : Argument :=
  .mk "val" false (.tuple [some .pyInt, some .pyStr]) .none Option.none
    Option.none Option.none []

/-- An argument whose first cast candidate is a user callable that always
raises. -/
def c3_arg_fallback : Argument :=
  .mk "val" false (.tuple [some (.failFn "no"), some .pyInt, some .pyStr])
    .none Option.none Option.none Option.none []

/-- C3: for an Argument whose `type` is an ordered tuple of cast functions,
`ConstructorSchema.cast` tries each non-final candidate in order, returns
the first candidate's result on success, silently swallows any exception a
non-final candidate raises, and propagates the final candidate's outcome
verbatim; in particular with candidates `(int, str)` the value `"abc"`
fails `int` and is returned unchanged by `str`, while `"42"` succeeds with
`int` and returns the integer `42`. -/
theorem c3_cast_fallback :
    (∀ (arg : Argument) (value value₁ r : Value) (cs₁ : List (Option CastFn))
        (c : Option CastFn) (cs₂ : List (Option CastFn)),
      ConstructorSchema.nargs_check arg value = .ok value₁ →
      ConstructorSchema.castTuple arg.type = cs₁ ++ c :: cs₂ →
      cs₂ ≠ [] →
      (∀ c₁ ∈ cs₁, castFails (ConstructorSchema.cast1 arg value₁ c₁) = true) →
      ConstructorSchema.cast1 arg value₁ c = .ok r →
      ConstructorSchema.cast arg value = .ok r)
    ∧ (∀ (arg : Argument) (value value₁ : Value) (cs₁ : List (Option CastFn))
        (c : Option CastFn),
      ConstructorSchema.nargs_check arg value = .ok value₁ →
      ConstructorSchema.castTuple arg.type = cs₁ ++ [c] →
      (∀ c₁ ∈ cs₁, castFails (ConstructorSchema.cast1 arg value₁ c₁) = true) →
      ConstructorSchema.cast arg value = ConstructorSchema.cast1 arg value₁ c)
    ∧ ConstructorSchema.cast c3_arg_int_str (.str "abc") = .ok (.str "abc")
    ∧ ConstructorSchema.cast c3_arg_int_str (.str "42") = .ok (.int 42) := by
  refine ⟨?_, ?_, by decide, by decide⟩
  · intro arg value value₁ r cs₁ c cs₂ hchk htup h₂ hfail hok
    rw [ConstructorSchema.cast, hchk, htup]
    exact tryCasts_first_ok arg value₁ r c cs₂ h₂ hok cs₁ hfail
  · intro arg value value₁ cs₁ c hchk htup hfail
    rw [ConstructorSchema.cast, hchk, htup]
    exact tryCasts_all_fail arg value₁ c cs₁ hfail

theorem c3_cast_fallback_witness :
    ConstructorSchema.cast c3_arg_fallback (.str "42") = .ok (.int 42)
    ∧ ConstructorSchema.cast c3_arg_int_str (.str "abc")
      = ConstructorSchema.cast1 c3_arg_int_str (.str "abc") (some .pyStr) := by
  constructor
  · exact c3_cast_fallback.1 c3_arg_fallback (.str "42") (.str "42") (.int 42)
      [some (.failFn "no")] (some .pyInt) [some .pyStr] (by decide) (by decide)
      (by decide) (by decide) (by decide)
  · exact c3_cast_fallback.2.1 c3_arg_int_str (.str "abc") (.str "abc")
      [some .pyInt] (some .pyStr) (by decide) (by decide) (by decide)

theorem cast_elems_length (f : CastFn) :
    ∀ (l l' : List Value), ConstructorSchema.cast_elems f l = .ok l' → l'.length = l.length
  | [], l', h => by
      simp [ConstructorSchema.cast_elems] at h
      simp [← h]
  | v :: rest, l', h => by
      simp only [ConstructorSchema.cast_elems] at h
      cases hv : f.run v with
      | error e => rw [hv] at h; exact absurd h (by simp)
      | ok r =>
          rw [hv] at h
          cases hr : ConstructorSchema.cast_elems f rest with
          | error e => rw [hr] at h; exact absurd h (by simp)
          | ok rs =>
              rw [hr] at h
              cases h
              simp [cast_elems_length f rest rs hr]

theorem Value.isList_list (l : List Value) : (Value.list l).isList = true := rfl

theorem Value.pyLen_list (l : List Value) : (Value.list l).pyLen = l.length := rfl

/-- The argument used in the spec's cardinality example: `nargs=3`. -/
def c4_arg_n3 : Argument :=
  .mk "trip" false (.single .pyInt) .none Option.none (some (.exact 3))
    Option.none []

/-- C4: for an Argument with non-`None` `nargs`, `ConstructorSchema.cast`
first wraps a non-sequence value into a one-element list; when `nargs` is an
exact integer and the length differs it fails with a cardinality
`ValueError` naming the argument; when the lengths agree each element is
cast independently and the result is a list of that length. -/
theorem c4_nargs_cardinality :
    (∀ (arg : Argument) (v : Value), arg.nargs ≠ Option.none → v.isList = false →
      ConstructorSchema.cast arg v = ConstructorSchema.cast arg (.list [v]))
    ∧ (∀ (arg : Argument) (l : List Value) (n : Nat),
      arg.nargs = some (.exact n) → l.length ≠ n →
      ConstructorSchema.cast arg (.list l) = .error ⟨.valueError,
        "\x27" ++ arg.name ++ "\x27 requires exactly " ++ toString n ++
          " arguments"⟩)
    ∧ (∀ (arg : Argument) (l l' : List Value) (n : Nat) (f : CastFn),
      arg.nargs = some (.exact n) → l.length = n →
      arg.type = .single f → ConstructorSchema.cast_elems f l = .ok l' →
      ConstructorSchema.cast arg (.list l) = .ok (.list l') ∧ l'.length = n) := by
  refine ⟨?_, ?_, ?_⟩
  · intro arg v h1 h2
    simp [ConstructorSchema.cast, ConstructorSchema.nargs_check, h1, h2,
      Value.isList_list]
  · intro arg l n h1 h2
    simp [ConstructorSchema.cast, ConstructorSchema.nargs_check, h1, h2,
      Value.isList_list, Value.pyLen_list]
  · intro arg l l' n f h1 h2 h3 h4
    refine ⟨?_, h2 ▸ cast_elems_length f l l' h4⟩
    simp [ConstructorSchema.cast, ConstructorSchema.nargs_check, h1, h2, h3,
      Value.isList_list, Value.pyLen_list, ConstructorSchema.castTuple,
      ConstructorSchema.tryCasts, ConstructorSchema.cast1, h4]

theorem c4_nargs_cardinality_witness :
    ConstructorSchema.cast c4_arg_n3 (.int 7)
      = ConstructorSchema.cast c4_arg_n3 (.list [.int 7])
    ∧ ConstructorSchema.cast c4_arg_n3 (.list [.int 1, .int 2])
      = .error ⟨.valueError, "\x27trip\x27 requires exactly 3 arguments"⟩
    ∧ ConstructorSchema.cast c4_arg_n3 (.list [.str "1", .int 2, .str "3"])
      = .ok (.list [.int 1, .int 2, .int 3]) := by
  refine ⟨?_, ?_, ?_⟩
  · exact c4_nargs_cardinality.1 c4_arg_n3 (.int 7) (by decide) (by decide)
  · exact c4_nargs_cardinality.2.1 c4_arg_n3 [.int 1, .int 2] 3 (by decide)
      (by decide)
  · exact (c4_nargs_cardinality.2.2 c4_arg_n3 [.str "1", .int 2, .str "3"]
      [.int 1, .int 2, .int 3] 3 .pyInt (by decide) (by decide) (by decide)
      (by decide)).1

theorem dget_dset_self (d : List (String × α)) (k : String) (v : α) :
    dget (dset d k v) k = some v := by
  induction d with
  | nil => simp [dget, dset]
  | cons p rest ih =>
      by_cases h : p.1 = k
      · simp [dget, dset, h]
      · simp [dget, dset, h, ih]

theorem dset_dset_self (d : List (String × α)) (k : String) (v w : α) :
    dset (dset d k v) k w = dset d k w := by
  induction d with
  | nil => simp [dset]
  | cons p rest ih =>
      by_cases h : p.1 = k
      · simp [dset, h]
      · simp [dset, h, ih]

theorem dmodify_dset_self (d : List (String × α)) (k : String) (v : α)
    (f : α → α) : dmodify (dset d k v) k f = dset d k (f v) := by
  induction d with
  | nil => simp [dset, dmodify]
  | cons p rest ih =>
      by_cases h : p.1 = k
      · simp [dset, dmodify, h]
      · simp [dset, dmodify, h, ih]

theorem dget_eq_none_of_not_contains (d : List (String × α)) (k : String)
    (h : dcontains d k = false) : dget d k = Option.none := by
  induction d with
  | nil => rfl
  | cons p rest ih =>
      simp only [dcontains, dkeys, List.map_cons, List.contains_cons,
        Bool.or_eq_false_iff, beq_eq_false_iff_ne, ne_eq] at h
      rw [dget, if_neg (fun hh => h.1 hh.symm)]
      exact ih h.2

theorem derase_of_dget_none (d : List (String × α)) (k : String)
    (h : dget d k = Option.none) : derase d k = d := by
  induction d with
  | nil => simp [derase]
  | cons p rest ih =>
      rw [dget] at h
      by_cases hk : p.1 = k
      · simp [hk] at h
      · simp [derase, hk, ih (by simpa [hk] using h)]

theorem derase_sublist (d : List (String × α)) (k : String) :
    List.Sublist (derase d k) d := by
  induction d with
  | nil => simp [derase]
  | cons p rest ih =>
      by_cases h : p.1 = k
      · rw [derase, if_pos h]
        exact List.sublist_cons_self p rest
      · rw [derase, if_neg h]
        exact ih.cons₂ p

theorem dget_mem (d : List (String × α)) (k : String) (v : α)
    (h : dget d k = some v) : (k, v) ∈ d := by
  induction d with
  | nil => simp [dget] at h
  | cons p rest ih =>
      obtain ⟨k₀, v₀⟩ := p
      by_cases hk : k₀ = k
      · subst hk
        rw [dget, if_pos rfl] at h
        cases h
        exact List.mem_cons_self _ _
      · rw [dget] at h
        exact List.mem_cons_of_mem _ (ih (by simpa [hk] using h))

theorem Argument.withSubfields_self (a : Argument) :
    a.withSubfields a.subfields = a := by
  cases a
  rfl

theorem joinDots_singleton (p : String) : joinDots [p] = p := rfl

/-- C6 counterexample: `add_argument("a.b", required=True)` on an empty
schema creates the intermediate container `"a"` with `required = True` —
the caller's flag — not `False` as the claim states. -/
theorem c6_counterexample :
    (ConstructorSchema.add_argument [] "a.b" .none .none Option.none
        Option.none Option.none true).toOption.bind
      (fun s => (dget s "a").map Argument.required) = some true := by decide

/-- C6 (corrected): an intermediate container Argument auto-created along a
dotted path is created as a non-leaf placeholder carrying the `required`
flag *given in the `add_argument` call* (the flag of the leaf being added),
not `False`. -/
theorem c6_parent_required_flag :
    ∀ (s : Schema) (nm p sfx : String) (ty : TypeSpec) (df : Value)
      (ch : Option (List Value)) (na : Option Nargs) (hp : Option String)
      (rq : Bool),
    splitDots nm = [p, sfx] →
    dcontains s p = false →
    ConstructorSchema.add_argument s nm ty df ch na hp rq
      = .ok (dset s p (Argument.mk p rq .none .none Option.none Option.none
          (some "") [(sfx, Argument.mk nm rq ty df ch na hp [])])) := by
  intro s nm p sfx ty df ch na hp rq hsplit hmem
  have h₁ : create_parents s [p] [] rq
      = dset s p (Argument.mk p rq .none .none Option.none Option.none
          (some "") []) := by
    rw [create_parents, if_neg (by simp [hmem]), dmodify_dset_self]
    rfl
  have h₂ : ConstructorSchema.contains
      (dset s p (Argument.mk p rq .none .none Option.none Option.none
        (some "") [])) nm = .ok false := by
    set A : Argument := Argument.mk p rq .none .none Option.none Option.none
      (some "") [] with hA
    unfold ConstructorSchema.contains
    rw [hsplit]
    show (match contains_walk (dset s p A) [p] (dset s p A) with
      | Except.error e => Except.error e
      | Except.ok obj => Except.ok (dcontains obj sfx)) = Except.ok false
    rw [contains_walk, dget_dset_self]
    rfl
  unfold ConstructorSchema.add_argument
  rw [hsplit]
  show (match ConstructorSchema.contains (create_parents s [p] [] rq) nm with
    | Except.error e => (Except.error e : Except PyExc Schema)
    | Except.ok c =>
        if ¬ c then
          set_leaf (create_parents s [p] [] rq) [p] (fun obj =>
            Except.ok (dset obj sfx (Argument.mk nm rq ty df ch na hp [])))
        else
          set_leaf (create_parents s [p] [] rq) [p] (fun obj =>
            match dget obj sfx with
            | Option.none => Except.error ⟨.keyError, "'" ++ sfx ++ "'"⟩
            | some old => Except.ok (dset obj sfx (Argument.mk old.name rq
                ty df ch na hp old.subfields)))) = _
  rw [h₁, h₂]
  show set_leaf (dset s p (Argument.mk p rq .none .none Option.none
      Option.none (some "") [])) [p]
    (fun obj => Except.ok (dset obj sfx (Argument.mk nm rq ty df ch na hp [])))
    = _
  rw [set_leaf, dget_dset_self]
  show Except.ok (dset (dset s p (Argument.mk p rq .none .none Option.none
      Option.none (some "") [])) p
    ((Argument.mk p rq .none .none Option.none Option.none (some "")
      []).withSubfields [(sfx, Argument.mk nm rq ty df ch na hp [])])) = _
  rw [dset_dset_self]
  rfl

theorem c6_parent_required_flag_witness :
    ConstructorSchema.add_argument [] "x.y" (.single .pyInt) (.int 5)
      Option.none Option.none (some "h") false
    = .ok (dset [] "x" (Argument.mk "x" false .none .none Option.none
        Option.none (some "")
        [("y", Argument.mk "x.y" false (.single .pyInt) (.int 5) Option.none
          Option.none (some "h") [])])) :=
  c6_parent_required_flag [] "x.y" "x" "y" (.single .pyInt) (.int 5)
    Option.none Option.none (some "h") false (by decide) (by decide)

/-- C7 (code bug witness): declaring `"a.b.c"` on an empty schema raises
`KeyError('b')` — `contains` walks `self[k].subfields` instead of
`obj[k].subfields`, so the middle segment is looked up at the top level —
and the leaf is never inserted, breaking the declare-then-lookup round
trip the claim (and the source docstring of `contains`) promises. -/
theorem c7_contains_bug :
    ConstructorSchema.add_argument [] "a.b.c" .none .none Option.none
      Option.none Option.none false = .error ⟨.keyError, "\x27b\x27"⟩ := by
  decide

theorem fill_namespace_leaf_none (a : Argument) (h : a.subfields = [])
    (ns : NS) (missing : List String) :
    fill_namespace ns a Option.none missing = .ok (ns, Option.none, missing) := by
  cases a with
  | mk nm rq ty df ch na hp subs =>
      rw [Argument.subfields] at h
      subst h
      rfl

theorem fill_namespace_container_none (a : Argument) (h : a.subfields ≠ [])
    (ns : NS) (missing : List String) :
    fill_namespace ns a Option.none missing
      = .error ⟨.attributeError,
          "\x27NoneType\x27 object has no attribute \x27pop\x27"⟩ := by
  cases a with
  | mk nm rq ty df ch na hp subs =>
      rw [Argument.subfields] at h
      rw [fill_namespace, if_neg h]

theorem fill_subfields_skip_leaves (ns : NS) (missing : List String)
    (rest : List (String × Argument)) :
    ∀ pre : List (String × Argument), (∀ p ∈ pre, p.2.subfields = []) →
    fill_subfields ns (pre ++ rest) Option.none missing
      = fill_subfields ns rest Option.none missing
  | [], _ => by rw [List.nil_append]
  | (k, a) :: t, h => by
      rw [List.cons_append, fill_subfields,
        fill_namespace_leaf_none a (h (k, a) (by simp)) ns missing]
      exact fill_subfields_skip_leaves ns missing rest t
        (fun q hq => h q (by simp [hq]))

/-- C10: when a container Argument's local name is absent from the document
and one of its children is itself a container (all children before it being
leaves, which do nothing on a `None` sub-document), filling passes `None`
down and the recursive fill raises an unwrapped `AttributeError` from
`None.pop`, rather than recording missing names or raising a
`ConfigurationError`. -/
theorem c10_absent_container_attributeerror :
    ∀ (ns : NS) (nm : String) (rq : Bool) (ty : TypeSpec) (df : Value)
      (ch : Option (List Value)) (na : Option Nargs) (hp : Option String)
      (pre : List (String × Argument)) (k : String) (child : Argument)
      (post : List (String × Argument)) (cfg : Doc) (missing : List String),
    (∀ p ∈ pre, p.2.subfields = []) →
    child.subfields ≠ [] →
    dget cfg ((splitDots nm).getLastD "") = Option.none →
    fill_namespace ns (.mk nm rq ty df ch na hp (pre ++ (k, child) :: post))
        (some (.dict cfg)) missing
      = .error ⟨.attributeError,
          "\x27NoneType\x27 object has no attribute \x27pop\x27"⟩ := by
  intro ns nm rq ty df ch na hp pre k child post cfg missing hpre hchild hget
  have hsubs : fill_subfields [] (pre ++ (k, child) :: post)
      (dget cfg ((splitDots nm).getLastD "")) missing
      = .error ⟨.attributeError,
          "\x27NoneType\x27 object has no attribute \x27pop\x27"⟩ := by
    rw [hget, fill_subfields_skip_leaves [] missing ((k, child) :: post) pre hpre,
      fill_subfields, fill_namespace_container_none child hchild [] missing]
  rw [fill_namespace, if_neg (by simp)]
  simp only [hsubs]

theorem c10_absent_container_attributeerror_witness :
    fill_namespace [] (.mk "outer" false .none .none Option.none Option.none
      (some "")
      [("inner", Argument.mk "outer.inner" false .none .none Option.none
        Option.none (some "")
        [("x", Argument.mk "outer.inner.x" false .none .none Option.none
          Option.none Option.none [])])])
      (some (.dict [("y", .int 1)])) []
    = .error ⟨.attributeError,
        "\x27NoneType\x27 object has no attribute \x27pop\x27"⟩ :=
  c10_absent_container_attributeerror [] "outer" false .none .none Option.none
    Option.none (some "") [] "inner"
    (Argument.mk "outer.inner" false .none .none Option.none Option.none
      (some "")
      [("x", Argument.mk "outer.inner.x" false .none .none Option.none
        Option.none Option.none [])])
    [] [("y", .int 1)] [] (by decide) (by decide) (by decide)

/-- C1 counterexample: a container Argument declared `"Field"` with a
document key `"field"` (equal up to case): the sub-document is *not*
matched, not extracted, and not removed — `fill_namespace` pops container
sub-documents by exact name only, so the namespace stays empty, the document
is returned unchanged, and even the required leaf below is not recorded
missing. -/
theorem c1_counterexample :
    fill_namespace [] (.mk "Field" false .none .none Option.none Option.none
      (some "")
      [("mode", Argument.mk "Field.mode" true .none .none Option.none
        Option.none Option.none [])])
      (some (.dict [("field", .dict [("mode", .str "real")])])) []
    = .ok ([], some (.dict [("field", .dict [("mode", .str "real")])]), []) := by
  decide

/-- C1 (corrected): document-side case-insensitive matching holds at *leaf*
level — the first case-insensitively matching document key is used, its
value extracted and removed under its original casing, and the Schema's
declared casing is the attribute name set on the namespace — but at
*container* level the sub-document is popped under the exact schema-cased
name only: with no exact match the document is left untouched (even when a
case-insensitively matching key is present). -/
theorem c1_case_insensitive_leaf_only :
    (∀ (ns : NS) (nm : String) (rq : Bool) (ty : TypeSpec) (df : Value)
        (ch : Option (List Value)) (na : Option Nargs) (hp : Option String)
        (cfg : Doc) (missing : List String) (k : String) (kv v : Value),
      case_insensitive_name_match ((splitDots nm).getLastD "") cfg = some k →
      dget cfg k = some kv →
      ConstructorSchema.cast (.mk nm rq ty df ch na hp []) kv = .ok v →
      fill_namespace ns (.mk nm rq ty df ch na hp []) (some (.dict cfg)) missing
        = .ok (dset ns ((splitDots nm).getLastD "") v,
            some (.dict (derase cfg k)), missing)
      ∧ lowStr k = lowStr ((splitDots nm).getLastD ""))
    ∧ (∀ (ns : NS) (nm : String) (rq : Bool) (ty : TypeSpec) (df : Value)
        (ch : Option (List Value)) (na : Option Nargs) (hp : Option String)
        (subs : List (String × Argument)) (cfg : Doc) (missing : List String),
      subs ≠ [] →
      (∀ p ∈ subs, p.2.subfields = []) →
      dget cfg ((splitDots nm).getLastD "") = Option.none →
      fill_namespace ns (.mk nm rq ty df ch na hp subs) (some (.dict cfg))
        missing = .ok (ns, some (.dict cfg), missing)) := by
  constructor
  · intro ns nm rq ty df ch na hp cfg missing k kv v hmatch hval hcast
    constructor
    · rw [fill_namespace, if_pos rfl]
      simp only [hmatch, hval, Option.getD_some, hcast]
    · rw [case_insensitive_name_match] at hmatch
      have h := List.find?_some hmatch
      simpa using h
  · intro ns nm rq ty df ch na hp subs cfg missing hne hleaves hget
    rw [fill_namespace, if_neg hne]
    have hsubs : fill_subfields [] subs
        (dget cfg ((splitDots nm).getLastD "")) missing
        = .ok ([], Option.none, missing) := by
      rw [hget, ← List.append_nil subs,
        fill_subfields_skip_leaves [] missing [] subs hleaves, fill_subfields]
    simp only [hsubs, List.length_nil, ne_eq, not_true_eq_false, if_neg,
      derase_of_dget_none cfg _ hget]
    simp

theorem c1_case_insensitive_leaf_only_witness :
    (fill_namespace [] (.mk "Nmesh" true .none .none Option.none Option.none
        Option.none []) (some (.dict [("nmesh", .int 64)])) []
      = .ok ([("Nmesh", .int 64)], some (.dict []), [])
      ∧ lowStr "nmesh" = lowStr "Nmesh")
    ∧ fill_namespace [] (.mk "Field" false .none .none Option.none Option.none
        (some "")
        [("mode", Argument.mk "Field.mode" true .none .none Option.none
          Option.none Option.none [])])
        (some (.dict [("field", .int 3)])) []
      = .ok ([], some (.dict [("field", .int 3)]), []) := by
  constructor
  · exact c1_case_insensitive_leaf_only.1 [] "Nmesh" true .none .none
      Option.none Option.none Option.none [("nmesh", .int 64)] [] "nmesh"
      (.int 64) (.int 64) (by decide) (by decide) (by decide)
  · exact c1_case_insensitive_leaf_only.2 [] "Field" false .none .none
      Option.none Option.none (some "")
      [("mode", Argument.mk "Field.mode" true .none .none Option.none
        Option.none Option.none [])]
      [("field", .int 3)] [] (by decide) (by decide) (by decide)

mutual
theorem fill_namespace_missing_mono :
    ∀ (ns : NS) (a : Argument) (config : Option Value) (missing : List String)
      (r : NS × Option Value × List String),
    fill_namespace ns a config missing = .ok r → ∃ t, r.2.2 = missing ++ t
  | ns, .mk nm rq ty df ch na hp subs, config, missing, r => fun h => by
      by_cases hs : subs = []
      · subst hs
        unfold fill_namespace at h
        rw [if_pos rfl] at h
        split at h
        · cases h; exact ⟨[], by simp⟩
        · split at h
          · split at h
            · cases h; exact ⟨[], by simp⟩
            · exact absurd h (by simp)
          · split at h
            · cases h; exact ⟨[nm], rfl⟩
            · cases h; exact ⟨[], by simp⟩
        · exact absurd h (by simp)
      · unfold fill_namespace at h
        rw [if_neg hs] at h
        split at h
        · exact absurd h (by simp)
        · rename_i cfg
          split at h
          · exact absurd h (by simp)
          · rename_i subns c₂ m₂ heq
            obtain ⟨t₁, ht₁⟩ := fill_subfields_missing_mono [] subs
              (dget cfg ((splitDots nm).getLastD "")) missing _ heq
            simp only at ht₁
            split at h
            · split at h
              · cases h; exact ⟨t₁, ht₁⟩
              · exact absurd h (by simp)
            · cases h; exact ⟨t₁, ht₁⟩
        · exact absurd h (by simp)
        · exact absurd h (by simp)

theorem fill_subfields_missing_mono :
    ∀ (ns : NS) (subs : List (String × Argument)) (config : Option Value)
      (missing : List String) (r : NS × Option Value × List String),
    fill_subfields ns subs config missing = .ok r → ∃ t, r.2.2 = missing ++ t
  | ns, [], config, missing, r => fun h => by
      cases h; exact ⟨[], by simp⟩
  | ns, (k, a) :: rest, config, missing, r => fun h => by
      rw [fill_subfields] at h
      cases hfn : fill_namespace ns a config missing with
      | error e => rw [hfn] at h; exact absurd h (by simp)
      | ok tri =>
          obtain ⟨ns₁, c₁, m₁⟩ := tri
          rw [hfn] at h
          obtain ⟨t₁, ht₁⟩ := fill_namespace_missing_mono ns a config missing
            _ hfn
          obtain ⟨t₂, ht₂⟩ := fill_subfields_missing_mono ns₁ rest c₁ m₁ r h
          refine ⟨t₁ ++ t₂, ?_⟩
          simp only [ht₂]
          simp only at ht₁
          rw [ht₁, List.append_assoc]
end

/-- The schema of the missing-aggregation scenario: a container `opts` with
a required leaf `opts.a`, and a required top-level leaf `b`. -/
def c2_schema : Schema :=
  [("opts", .mk "opts" false .none .none Option.none Option.none (some "")
      [("a", Argument.mk "opts.a" true .none .none Option.none Option.none
        Option.none [])]),
   ("b", .mk "b" true .none .none Option.none Option.none Option.none [])]

/-- C2 counterexample: with document `{zzz: 1}`, both `opts.a` and `b` are
required leaves without any case-insensitive match, yet `ReadConfigFile`
raises a `ValueError` — not a `ConfigurationError`-equivalent — listing only
`'b'`: the leaf `opts.a` under the absent container was silently skipped. -/
theorem c2_counterexample :
    ReadConfigFile (.dict [("zzz", .int 1)]) c2_schema
      = .error ⟨.valueError, "missing required arguments: [\x27b\x27]"⟩
    ∧ ExcKind.valueError ≠ ExcKind.configurationError := by
  exact ⟨by decide, by decide⟩

/-- C2 (corrected): after the full walk over every top-level entry,
`ReadConfigFile` raises once, as a `ValueError` (not a
`ConfigurationError`), listing exactly the dotted names *recorded* during
the walk — and recording only accumulates (each recursive fill appends to
the shared list), so no entry's contribution is lost; however required
leaves under an absent sub-document are never recorded (their fill receives
`None` and does nothing). -/
theorem c2_missing_aggregation :
    (∀ (d : Doc) (schema : Schema) (ns : NS) (cfg : Option Value)
        (missing : List String),
      dcontains d "X" = false → dcontains d "cosmo" = false →
      fill_config_loop schema [] (some (.dict d)) [] = .ok (ns, cfg, missing) →
      missing ≠ [] →
      ReadConfigFile (.dict d) schema
        = .error ⟨.valueError, "missing required arguments: " ++
            pyReprStrList missing⟩)
    ∧ (∀ (ns : NS) (a : Argument) (config : Option Value)
        (missing : List String) (r : NS × Option Value × List String),
      fill_namespace ns a config missing = .ok r → ∃ t, r.2.2 = missing ++ t)
    ∧ (∀ (ns : NS) (a : Argument) (nm : String) (cfg : Doc)
        (missing : List String),
      a.subfields = [] → a.required = true →
      case_insensitive_name_match ((splitDots a.name).getLastD "") cfg
        = Option.none → nm = a.name →
      fill_namespace ns a (some (.dict cfg)) missing
        = .ok (ns, some (.dict cfg), missing ++ [nm])) := by
  refine ⟨?_, fill_namespace_missing_mono, ?_⟩
  · intro d schema ns cfg missing hX hcosmo hfill hne
    have hp : popPlugins d = .ok d := by rw [popPlugins, if_neg (by simp [hX])]
    have hc : popCosmo d = .ok d := by rw [popCosmo, if_neg (by simp [hcosmo])]
    rw [ReadConfigFile]
    simp only [hp, hc, hfill]
    rw [if_pos (by simpa using hne)]
  · intro ns a nm cfg missing hleaf hreq hmatch hnm
    cases a with
    | mk n rq ty df ch na hp subs =>
        rw [Argument.subfields] at hleaf
        rw [Argument.required] at hreq
        rw [Argument.name] at hmatch hnm
        subst hleaf
        subst hreq
        subst hnm
        rw [fill_namespace, if_pos rfl]
        simp only [hmatch]
        simp

theorem c2_missing_aggregation_witness :
    ReadConfigFile (.dict [("qqq", .str "s")]) c2_schema
      = .error ⟨.valueError, "missing required arguments: [\x27b\x27]"⟩
    ∧ (∃ t, (([], some (Value.dict []), ["b"]) :
        NS × Option Value × List String).2.2 = [] ++ t)
    ∧ fill_namespace [] (.mk "b" true .none .none Option.none Option.none
        Option.none []) (some (.dict [("qqq", .str "s")])) ["opts.a"]
      = .ok ([], some (.dict [("qqq", .str "s")]), ["opts.a"] ++ ["b"]) := by
  refine ⟨?_, ?_, ?_⟩
  · exact c2_missing_aggregation.1 [("qqq", .str "s")] c2_schema []
      (some (.dict [("qqq", .str "s")])) ["b"] (by decide) (by decide)
      (by decide) (by decide)
  · exact c2_missing_aggregation.2.1 []
      (.mk "b" true .none .none Option.none Option.none Option.none [])
      (some (.dict [])) [] ([], some (.dict []), ["b"]) (by decide)
  · exact c2_missing_aggregation.2.2 []
      (.mk "b" true .none .none Option.none Option.none Option.none []) "b"
      [("qqq", .str "s")] ["opts.a"] (by decide) (by decide) (by decide)
      (by decide)

theorem fill_namespace_doc_sublist (ns : NS) (a : Argument) (c : Doc)
    (m : List String) (r : NS × Option Value × List String)
    (h : fill_namespace ns a (some (.dict c)) m = .ok r) :
    ∃ c', r.2.1 = some (.dict c') ∧ List.Sublist c' c := by
  cases a with
  | mk nm rq ty df ch na hp subs =>
      by_cases hs : subs = []
      · subst hs
        unfold fill_namespace at h
        rw [if_pos rfl] at h
        dsimp only at h
        split at h
        · split at h
          · cases h; exact ⟨_, rfl, derase_sublist c _⟩
          · exact absurd h (by simp)
        · split at h
          · cases h; exact ⟨c, rfl, List.Sublist.refl c⟩
          · cases h; exact ⟨c, rfl, List.Sublist.refl c⟩
      · unfold fill_namespace at h
        rw [if_neg hs] at h
        dsimp only at h
        split at h
        · exact absurd h (by simp)
        · split at h
          · split at h
            · cases h; exact ⟨_, rfl, derase_sublist c _⟩
            · exact absurd h (by simp)
          · cases h; exact ⟨_, rfl, derase_sublist c _⟩

theorem fill_config_loop_doc_sublist :
    ∀ (schema : Schema) (ns : NS) (c : Doc) (m : List String)
      (out : NS × Option Value × List String),
    fill_config_loop schema ns (some (.dict c)) m = .ok out →
    ∃ c', out.2.1 = some (.dict c') ∧ List.Sublist c' c
  | [], ns, c, m, out => fun h => by
      cases h; exact ⟨c, rfl, List.Sublist.refl c⟩
  | (k, a) :: rest, ns, c, m, out => fun h => by
      rw [fill_config_loop] at h
      cases hfn : fill_namespace ns a (some (.dict c)) m with
      | error e => rw [hfn] at h; exact absurd h (by simp)
      | ok tri =>
          obtain ⟨ns₁, c₁, m₁⟩ := tri
          rw [hfn] at h
          obtain ⟨c₁', hc₁', hs₁⟩ := fill_namespace_doc_sublist ns a c m _ hfn
          simp only at hc₁'
          subst hc₁'
          obtain ⟨c₂', hc₂', hs₂⟩ := fill_config_loop_doc_sublist rest ns₁ c₁'
            m₁ out h
          exact ⟨c₂', hc₂', hs₂.trans hs₁⟩

theorem dcontains_append (a b : List (String × α)) (k : String) :
    dcontains (a ++ b) k = (dcontains a k || dcontains b k) := by
  induction a with
  | nil => rfl
  | cons p rest ih =>
      simp only [List.cons_append, dcontains, dkeys, List.map_cons,
        List.contains_cons] at ih ⊢
      rw [ih, Bool.or_assoc]

theorem dset_append_of_not_contains (u : List (String × α)) (k : String)
    (v : α) (h : dcontains u k = false) : dset u k v = u ++ [(k, v)] := by
  induction u with
  | nil => simp [dset]
  | cons p rest ih =>
      simp only [dcontains, dkeys, List.map_cons, List.contains_cons,
        Bool.or_eq_false_iff, beq_eq_false_iff_ne, ne_eq] at h
      rw [dset, if_neg (fun hh => h.1 hh.symm), ih h.2]
      simp

theorem build_unknown_go :
    ∀ (l u : Doc), (dkeys l).Nodup → (∀ k ∈ dkeys l, dcontains u k = false) →
    l.foldl (fun u p => dset u p.1 p.2) u = u ++ l
  | [], u, _, _ => by simp
  | (k, v) :: rest, u, hnd, hdisj => by
      simp only [List.foldl_cons]
      rw [dset_append_of_not_contains u k v (hdisj k (by simp [dkeys]))]
      have hcons := List.nodup_cons.mp
        (show (k :: dkeys rest).Nodup from hnd)
      rw [build_unknown_go rest (u ++ [(k, v)]) hcons.2
        (fun k' hk' => by
          have hk'' : k' ∈ dkeys ((k, v) :: rest) := by
            simp only [dkeys, List.map_cons]
            exact List.mem_cons_of_mem _ hk'
          have h1 : dcontains u k' = false := hdisj k' hk''
          have h2 : k' ≠ k := by
            intro he
            exact hcons.1 (he ▸ hk')
          rw [dcontains_append, h1]
          simp [dcontains, dkeys, h2])]
      simp

theorem build_unknown_eq_self (l : Doc) (h : (dkeys l).Nodup) :
    build_unknown l = l := by
  rw [build_unknown, build_unknown_go l [] h (fun k _ => rfl)]
  simp

/-- C9: every top-level document key consumed neither by the reserved keys
(`X`/`cosmo`, absent here) nor by filling any schema entry appears verbatim
— original name, original value — in the `unknown` output of
`ReadConfigFile`, and the presence of such keys never causes the read to
fail: whenever the fill phase succeeds with no missing names, the read
returns the leftover document as `unknown`, and that leftover is a sublist
of the original document. -/
theorem c9_unknown_passthrough :
    ∀ (d : Doc) (schema : Schema) (ns : NS) (extra : Doc),
    (dkeys d).Nodup →
    dcontains d "X" = false → dcontains d "cosmo" = false →
    fill_config_loop schema [] (some (.dict d)) []
      = .ok (ns, some (.dict extra), []) →
    ReadConfigFile (.dict d) schema = .ok (ns, extra)
    ∧ List.Sublist extra d
    ∧ ∀ p ∈ extra, p ∈ d := by
  intro d schema ns extra hnd hX hcosmo hfill
  have hsub : List.Sublist extra d := by
    obtain ⟨c', hc', hs⟩ := fill_config_loop_doc_sublist schema [] d []
      (ns, some (.dict extra), []) hfill
    simp only at hc'
    cases hc'
    exact hs
  refine ⟨?_, hsub, fun p hp => hsub.subset hp⟩
  have hp : popPlugins d = .ok d := by rw [popPlugins, if_neg (by simp [hX])]
  have hc : popCosmo d = .ok d := by
    rw [popCosmo, if_neg (by simp [hcosmo])]
  have hextra : (dkeys extra).Nodup :=
    ((hsub.map Prod.fst).nodup hnd)
  rw [ReadConfigFile]
  simp only [hp, hc, hfill, build_unknown_eq_self extra hextra,
    List.length_nil, ne_eq, not_true_eq_false, if_neg]
  simp

theorem c9_unknown_passthrough_witness :
    ReadConfigFile (.dict [("zzz", .int 1), ("Nmesh", .int 64)])
      [("Nmesh", .mk "Nmesh" true .none .none Option.none Option.none
        Option.none [])]
      = .ok ([("Nmesh", .int 64)], [("zzz", .int 1)])
    ∧ List.Sublist [("zzz", Value.int 1)]
        [("zzz", Value.int 1), ("Nmesh", Value.int 64)]
    ∧ ∀ p ∈ ([("zzz", Value.int 1)] : Doc),
        p ∈ ([("zzz", Value.int 1), ("Nmesh", Value.int 64)] : Doc) :=
  c9_unknown_passthrough [("zzz", .int 1), ("Nmesh", .int 64)]
    [("Nmesh", .mk "Nmesh" true .none .none Option.none Option.none
      Option.none [])]
    [("Nmesh", .int 64)] [("zzz", .int 1)] (by decide) (by decide) (by decide)
    (by decide)

theorem pydedupGo_mem :
    ∀ (l seen : List String) (x : String), x ∈ l →
    seen.contains x = false → x ∈ pydedupGo l seen
  | y :: rest, seen, x, hx, hseen => by
      rw [pydedupGo]
      by_cases hy : seen.contains y = true
      · rw [if_pos hy]
        rcases List.mem_cons.mp hx with h | h
        · subst h
          rw [hseen] at hy
          exact absurd hy (by simp)
        · exact pydedupGo_mem rest seen x h hseen
      · rw [if_neg hy]
        by_cases hxy : x = y
        · subst hxy
          exact List.mem_cons_self _ _
        · rcases List.mem_cons.mp hx with h | h
          · exact absurd h hxy
          · refine List.mem_cons_of_mem _
              (pydedupGo_mem rest (y :: seen) x h ?_)
            simp [List.contains_cons, hxy]
            simpa using hseen

theorem pydedup_mem (l : List String) (x : String) (h : x ∈ l) :
    x ∈ pydedup l :=
  pydedupGo_mem l [] x h rfl

/-- C5: when the real `init` body raises, the `autoassign` wrapper re-raises
an exception of the identical class whose message is the original message
with the diagnostic block prepended — a block naming (a) every argument
supplied both positionally and by keyword, (b) every required schema name
supplied neither way, (c) every supplied name absent from the schema — and
when at least one name is duplicated, the duplicated-arguments list is
embedded verbatim in the message. -/
theorem c5_init_error_enrichment :
    ∀ (clsName : String) (schema : Schema) (attrs : List String)
      (defaults : List Value) (varargs : Option String) (allowed : List String)
      (ambComm ambCosmo : Option Value)
      (init : NS → List Value → NS → Except PyExc NS) (self : NS)
      (args : List Value) (kwargs : NS) (self₁ posargs kwargs₁ : NS) (e : PyExc),
    bind_phase schema attrs defaults varargs allowed ambComm ambCosmo self
        args kwargs = .ok (self₁, posargs, kwargs₁) →
    init self₁ args kwargs₁ = .error e →
    autoassign_wrapper clsName schema attrs defaults varargs allowed ambComm
        ambCosmo init self args kwargs
      = .error ⟨e.kind,
          autoassign_errmsg clsName e (get_init_errmsg schema posargs kwargs₁)⟩
    ∧ (∃ pre post, autoassign_errmsg clsName e
        (get_init_errmsg schema posargs kwargs₁) = pre ++ e.msg ++ post)
    ∧ (∀ x, x ∈ dkeys posargs → x ∈ dkeys kwargs₁ →
        x ∈ duplicated_arguments posargs kwargs₁)
    ∧ (∀ x, x ∈ (schema.filter (fun p => p.2.required)).map Prod.fst →
        ¬ x ∈ dkeys posargs → ¬ x ∈ dkeys kwargs₁ →
        x ∈ missing_arguments schema posargs kwargs₁)
    ∧ (∀ x, (x ∈ dkeys posargs ∨ x ∈ dkeys kwargs₁) →
        dcontains schema x = false →
        x ∈ extra_arguments schema posargs kwargs₁) := by
  intro clsName schema attrs defaults varargs allowed ambComm ambCosmo init
    self args kwargs self₁ posargs kwargs₁ e hbind hinit
  refine ⟨?_, ?_, ?_, ?_, ?_⟩
  · rw [autoassign_wrapper, hbind]
    simp only [hinit]
  · refine ⟨"\n" ++ dashes75 ++ "\n" ++
      ("error initializing __init__ for \x27" ++ clsName ++ "\x27:\n") ++
      ("\t" ++ ljust "original error message" 25 ++ ": \x27"), "\x27\n" ++
      (if (get_init_errmsg schema posargs kwargs₁).length ≠ 0 then
        get_init_errmsg schema posargs kwargs₁ ++ "\n" else "") ++
      dashes75 ++ "\n", ?_⟩
    rw [autoassign_errmsg]
    simp only [String.append_assoc]
  · intro x h1 h2
    exact pydedup_mem _ x (List.mem_filter.mpr ⟨h1, by
      simpa using h2⟩)
  · intro x h1 h2 h3
    rw [missing_arguments]
    refine List.mem_filter.mpr ⟨h1, ?_⟩
    simp [h2, h3]
  · intro x h1 h2
    rw [extra_arguments]
    refine List.mem_filter.mpr ⟨pydedup_mem _ x (by
      rcases h1 with h | h
      · exact List.mem_append_left _ h
      · exact List.mem_append_right _ h), ?_⟩
    simp [h2]

/-- The schema of the constructor-binding scenario: required `name`,
optional `size`. -/
def c5_schema : Schema :=
  [("name", .mk "name" true .none .none Option.none Option.none Option.none []),
   ("size", .mk "size" false .none .none Option.none Option.none Option.none [])]

theorem c5_init_error_enrichment_witness :
    autoassign_wrapper "Box" c5_schema ["self", "name", "size"] [.int 10]
      Option.none [] Option.none Option.none
      (fun _ _ _ => .error ⟨.typeError, "boom"⟩)
      [] [.str "box"] [("name", .str "dup")]
    = .error ⟨.typeError,
        autoassign_errmsg "Box" ⟨.typeError, "boom"⟩
          (get_init_errmsg c5_schema [("name", .str "box")]
            [("name", .str "dup")])⟩
    ∧ "name" ∈ duplicated_arguments [("name", Value.str "box")]
        [("name", Value.str "dup")] := by
  have h := c5_init_error_enrichment "Box" c5_schema ["self", "name", "size"]
    [.int 10] Option.none [] Option.none Option.none
    (fun _ _ _ => .error ⟨.typeError, "boom"⟩)
    [] [.str "box"] [("name", .str "dup")]
    [("size", .int 10), ("name", .str "dup")] [("name", .str "box")]
    [("name", .str "dup")] ⟨.typeError, "boom"⟩ (by decide) (by decide)
  exact ⟨h.1, h.2.2.1 "name" (by decide) (by decide)⟩

theorem dget_some_of_contains (d : List (String × α)) (k : String)
    (h : dcontains d k = true) : ∃ v, dget d k = some v := by
  induction d with
  | nil => simp [dcontains, dkeys] at h
  | cons p rest ih =>
      by_cases hk : p.1 = k
      · exact ⟨p.2, by simp [dget, hk]⟩
      · rw [dget, if_neg hk]
        apply ih
        simp only [dcontains, dkeys, List.map_cons, List.contains_cons] at h
        rcases Bool.or_eq_true_iff.mp h with h | h
        · exact absurd (beq_iff_eq.mp h).symm hk
        · exact h

theorem dkeys_dset (d : List (String × α)) (k : String) (v : α) :
    dkeys (dset d k v) = if dcontains d k then dkeys d else dkeys d ++ [k] := by
  induction d with
  | nil => simp [dset, dkeys, dcontains]
  | cons p rest ih =>
      by_cases hk : p.1 = k
      · simp [dset, dkeys, dcontains, hk]
      · have hbe : (k == p.1) = false :=
          beq_eq_false_iff_ne.mpr (fun he => hk he.symm)
        simp only [dset, if_neg hk, dkeys, List.map_cons, dcontains,
          List.contains_cons] at ih ⊢
        rw [ih, hbe, Bool.false_or]
        by_cases hc : (List.map Prod.fst rest).contains k = true
        · rw [if_pos hc, if_pos hc]
        · rw [if_neg hc, if_neg hc]
          simp

theorem dcontains_dset_false (d : List (String × α)) (k t : String) (v : α)
    (h : dcontains (dset d k v) t = false) : dcontains d t = false := by
  rw [dcontains, dkeys_dset] at h
  by_cases hk : dcontains d k
  · rwa [if_pos hk] at h
  · rw [if_neg hk] at h
    have ht : t ∉ dkeys d ++ [k] := by simpa using h
    by_cases hb : dcontains d t = true
    · exfalso
      exact ht (List.mem_append_left _ (by simpa [dcontains] using hb))
    · simpa using hb

theorem dset_pair_sub (d : List (String × α)) (k : String) (v : α)
    (q : String × α) (h : q ∈ dset d k v) : q ∈ d ∨ q = (k, v) := by
  induction d with
  | nil => simp [dset] at h; exact Or.inr h
  | cons p rest ih =>
      rw [dset] at h
      by_cases hk : p.1 = k
      · rw [if_pos hk] at h
        rcases List.mem_cons.mp h with h | h
        · exact Or.inr h
        · exact Or.inl (List.mem_cons_of_mem _ h)
      · rw [if_neg hk] at h
        rcases List.mem_cons.mp h with h | h
        · exact Or.inl (h ▸ List.mem_cons_self _ _)
        · rcases ih h with h | h
          · exact Or.inl (List.mem_cons_of_mem _ h)
          · exact Or.inr h

theorem upd_entry_spec (rn dn : List String) (defs : List Value)
    (p q : String × Argument) (h : upd_entry rn dn defs p = .ok q) :
    q.1 = p.1 ∧ q.2.name = p.2.name ∧ upd_entry rn dn defs q = .ok q := by
  obtain ⟨pk, pa⟩ := p
  cases pa with
  | mk n r t d c na hlp sf =>
      rw [upd_entry] at h
      simp only [Argument.name, Argument.type, Argument.default,
        Argument.choices, Argument.nargs, Argument.help,
        Argument.subfields] at h
      by_cases hdn : dn.contains n = true
      · rw [if_pos hdn] at h
        cases hget : defs.get? (dn.indexOf n) with
        | none => rw [hget] at h; exact absurd h (by simp)
        | some dv =>
            rw [hget] at h
            cases h
            refine ⟨rfl, rfl, ?_⟩
            rw [upd_entry]
            simp only [Argument.name, Argument.type, Argument.default,
              Argument.choices, Argument.nargs, Argument.help,
              Argument.subfields]
            rw [if_pos hdn, hget]
      · rw [if_neg hdn] at h
        cases h
        refine ⟨rfl, rfl, ?_⟩
        rw [upd_entry]
        simp only [Argument.name, Argument.type, Argument.default,
          Argument.choices, Argument.nargs, Argument.help,
          Argument.subfields]
        rw [if_neg hdn]

/-- The pure missing-list transformation performed by `update_loop` over a
list of entry names. -/
def loop_drain (args allowed : List String) : List String → List String →
    List String
  | [], m => m
  | nm :: rest, m =>
      if ¬ args.contains nm ∧ ¬ allowed.contains nm then
        loop_drain args allowed rest m
      else
        loop_drain args allowed rest
          (if m.contains nm then m.erase nm else m)

theorem update_loop_forall2 (rn dn : List String) (defs : List Value)
    (args allowed : List String) :
    ∀ (l : List (String × Argument)) (m : List String)
      (es : List (String × Argument)) (ex ms : List String),
    update_loop rn dn defs args allowed l m = .ok (es, ex, ms) →
    List.Forall₂ (fun p q => upd_entry rn dn defs p = .ok q) l es
    ∧ ms = loop_drain args allowed (l.map (fun p => p.2.name)) m
  | [], m, es, ex, ms => fun h => by
      cases h
      exact ⟨List.Forall₂.nil, rfl⟩
  | p :: rest, m, es, ex, ms => fun h => by
      rw [update_loop] at h
      cases hupd : upd_entry rn dn defs p with
      | error e => rw [hupd] at h; exact absurd h (by simp)
      | ok p₁ =>
          simp only [hupd] at h
          by_cases hcond : ¬ args.contains p.2.name = true
            ∧ ¬ allowed.contains p.2.name = true
          · rw [if_pos hcond] at h
            cases hrest : update_loop rn dn defs args allowed rest m with
            | error e => rw [hrest] at h; exact absurd h (by simp)
            | ok tri =>
                obtain ⟨es', ex', ms'⟩ := tri
                rw [hrest] at h
                obtain ⟨hf, hd⟩ := update_loop_forall2 rn dn defs args allowed
                  rest m es' ex' ms' hrest
                cases h
                refine ⟨List.Forall₂.cons hupd hf, ?_⟩
                rw [List.map_cons, loop_drain, if_pos hcond]
                exact hd
          · rw [if_neg hcond] at h
            cases hrest : update_loop rn dn defs args allowed rest
                (if m.contains p.2.name then m.erase p.2.name else m) with
            | error e => rw [hrest] at h; exact absurd h (by simp)
            | ok tri =>
                obtain ⟨es', ex', ms'⟩ := tri
                rw [hrest] at h
                obtain ⟨hf, hd⟩ := update_loop_forall2 rn dn defs args allowed
                  rest _ es' ex' ms' hrest
                cases h
                refine ⟨List.Forall₂.cons hupd hf, ?_⟩
                rw [List.map_cons, loop_drain, if_neg hcond]
                exact hd

theorem forall2_fixed_eq :
    ∀ (rn dn : List String) (defs : List Value)
      (l es : List (String × Argument)),
    List.Forall₂ (fun p q => upd_entry rn dn defs p = .ok q) l es →
    (∀ p ∈ l, upd_entry rn dn defs p = .ok p) → es = l := by
  intro rn dn defs l es hf hfix
  induction hf with
  | nil => rfl
  | cons hpq hrest ih =>
      rename_i p q l' es'
      have h1 := hfix p (List.mem_cons_self _ _)
      rw [h1] at hpq
      cases hpq
      rw [ih (fun x hx => hfix x (List.mem_cons_of_mem _ hx))]

theorem loop_drain_nil_mem (args allowed : List String) :
    ∀ (l m : List String), loop_drain args allowed l m = [] →
    ∀ x ∈ m, x ∈ l
  | [], m => fun h x hx => by rw [loop_drain] at h; subst h; cases hx
  | nm :: rest, m => fun h x hx => by
      rw [loop_drain] at h
      by_cases hcond : ¬ args.contains nm = true ∧ ¬ allowed.contains nm = true
      · rw [if_pos hcond] at h
        exact List.mem_cons_of_mem _ (loop_drain_nil_mem args allowed rest m h x hx)
      · rw [if_neg hcond] at h
        by_cases hxnm : x = nm
        · exact hxnm ▸ List.mem_cons_self _ _
        · refine List.mem_cons_of_mem _
            (loop_drain_nil_mem args allowed rest _ h x ?_)
          by_cases hc : m.contains nm = true
          · rw [if_pos hc]
            exact List.mem_erase_of_ne hxnm |>.mpr hx
          · rw [if_neg hc]
            exact hx

theorem reorder_fold_pairs_sub (es : List (String × Argument)) :
    ∀ (names : List String) (acc : List (String × Argument)),
    (∀ q ∈ acc, q ∈ es) → ∀ q ∈ names.foldl (reorder_step es) acc, q ∈ es
  | [], acc, hacc => hacc
  | a :: rest, acc, hacc => by
      rw [List.foldl_cons]
      apply reorder_fold_pairs_sub es rest
      intro q hq
      rw [reorder_step] at hq
      cases hget : dget es a with
      | none => rw [hget] at hq; exact hacc q hq
      | some v =>
          rw [hget] at hq
          rcases dset_pair_sub acc a v q hq with h | h
          · exact hacc q h
          · exact h ▸ dget_mem es a v hget

theorem reorder_pairs_sub (es : List (String × Argument))
    (args allowed : List String) (q : String × Argument)
    (hq : q ∈ reorder_schema es args allowed) : q ∈ es := by
  rw [reorder_schema] at hq
  exact reorder_fold_pairs_sub es allowed _
    (fun q hq => reorder_fold_pairs_sub es args [] (by simp) q hq) q hq

theorem reorder_fold_keys_args (es : List (String × Argument)) :
    ∀ (names : List String) (acc : List (String × Argument)),
    names.Nodup → (∀ a ∈ names, dget es a ≠ Option.none) →
    (∀ a ∈ names, dcontains acc a = false) →
    dkeys (names.foldl (reorder_step es) acc) = dkeys acc ++ names
  | [], acc, _, _, _ => by simp
  | a :: rest, acc, hnd, hpres, hdisj => by
      rw [List.foldl_cons, reorder_step]
      cases hget : dget es a with
      | none => exact absurd hget (hpres a (by simp))
      | some v =>
          have hanotin : dcontains acc a = false := hdisj a (by simp)
          rw [reorder_fold_keys_args es rest (dset acc a v) hnd.of_cons
            (fun x hx => hpres x (by simp [hx]))
            (fun x hx => by
              have h1 : x ∉ dkeys acc := by
                simpa [dcontains] using hdisj x (by simp [hx])
              have h2 : ¬ x = a :=
                fun he => (List.nodup_cons.mp hnd).1 (he ▸ hx)
              rw [dcontains, dkeys_dset, if_neg (by simp [hanotin])]
              simp [h1, h2])]
          rw [dkeys_dset, if_neg (by simp [hanotin])]
          simp

theorem reorder_fold_keys_allowed (es : List (String × Argument)) :
    ∀ (ps : List String) (acc : List (String × Argument)),
    ∃ tail, dkeys (ps.foldl (reorder_step es) acc) = dkeys acc ++ tail
      ∧ ∀ t ∈ tail, dcontains acc t = false
  | [], acc => ⟨[], by simp, by simp⟩
  | pp :: rest, acc => by
      rw [List.foldl_cons, reorder_step]
      cases hget : dget es pp with
      | none => exact reorder_fold_keys_allowed es rest acc
      | some v =>
          obtain ⟨tail, hkeys, hdis⟩ :=
            reorder_fold_keys_allowed es rest (dset acc pp v)
          by_cases hc : dcontains acc pp = true
          · refine ⟨tail, ?_, ?_⟩
            · rw [hkeys, dkeys_dset, if_pos hc]
            · intro t ht
              exact dcontains_dset_false acc pp t v (hdis t ht)
          · refine ⟨pp :: tail, ?_, ?_⟩
            · rw [hkeys, dkeys_dset, if_neg hc]
              simp
            · intro t ht
              rcases List.mem_cons.mp ht with h | h
              · subst h
                simpa using hc
              · exact dcontains_dset_false acc pp t v (hdis t h)

theorem forall2_upd_facts (rn dn : List String) (defs : List Value)
    (l es : List (String × Argument))
    (hf : List.Forall₂ (fun p q => upd_entry rn dn defs p = .ok q) l es) :
    (∀ q ∈ es, upd_entry rn dn defs q = .ok q)
    ∧ dkeys es = dkeys l
    ∧ es.map (fun p => p.2.name) = l.map (fun p => p.2.name)
    ∧ ((∀ p ∈ l, p.1 = p.2.name) → ∀ q ∈ es, q.1 = q.2.name) := by
  induction hf with
  | nil => exact ⟨by simp, rfl, rfl, by simp⟩
  | cons hpq hrest ih =>
      rename_i p q l' es'
      obtain ⟨hk, hn, hfix⟩ := upd_entry_spec rn dn defs p q hpq
      obtain ⟨ih1, ih2, ih3, ih4⟩ := ih
      refine ⟨?_, ?_, ?_, ?_⟩
      · intro x hx
        rcases List.mem_cons.mp hx with h | h
        · exact h ▸ hfix
        · exact ih1 x h
      · simp [dkeys, hk]
        simpa [dkeys] using ih2
      · simp [hn]
        exact ih3
      · intro hw x hx
        rcases List.mem_cons.mp hx with h | h
        · subst h
          rw [hk, hn]
          exact hw p (List.mem_cons_self _ _)
        · exact ih4 (fun y hy => hw y (List.mem_cons_of_mem _ hy)) x h

/-- C8: schema/signature reconciliation is idempotent — for a schema whose
keys agree with its Arguments' names (as every schema assembled through
top-level `add_argument` calls does) and a signature without duplicate
parameter names, running `update_schema` a second time against the unchanged
signature succeeds and returns the very same schema, so every entry keeps
the same `required` flag and `default` value as after the first run. -/
theorem c8_update_schema_idempotent :
    ∀ (s : Schema) (attrs : List String) (defaults : List Value)
      (allowed : List String) (s₁ s₂ : Schema),
    (∀ p ∈ s, p.1 = p.2.name) →
    (attrs.drop 1).Nodup →
    update_schema s attrs defaults allowed = .ok s₁ →
    update_schema s₁ attrs defaults allowed = .ok s₂ →
    s₂ = s₁ := by
  intro s attrs defaults allowed s₁ s₂ hwn hnd h1 h2
  unfold update_schema at h1 h2
  dsimp only at h1 h2
  set args := attrs.drop 1 with hargs
  set rn := if defaults.length ≠ 0
    then args.take (args.length - defaults.length) else args with hrn
  set dn := if defaults.length ≠ 0
    then args.drop (args.length - defaults.length) else ([] : List String)
    with hdn
  -- the second run, given that every entry of `s₁` is a fixed point of the
  -- per-entry update and that the reorder test already passes
  have main : (∀ p ∈ s₁, upd_entry rn dn defaults p = .ok p) →
      ((dkeys s₁).filter (fun k => args.contains k) = args) → s₂ = s₁ := by
    intro hfix₁ hfil₁
    cases hloop₂ : update_loop rn dn defaults args allowed s₁ (dn ++ rn) with
    | error e => rw [hloop₂] at h2; exact absurd h2 (by simp)
    | ok tri₂ =>
        obtain ⟨es₂, ex₂, ms₂⟩ := tri₂
        obtain ⟨hf₂, hd₂⟩ := update_loop_forall2 rn dn defaults args allowed
          s₁ (dn ++ rn) es₂ ex₂ ms₂ hloop₂
        have hes₂ : es₂ = s₁ := forall2_fixed_eq rn dn defaults s₁ es₂ hf₂ hfix₁
        rw [hloop₂] at h2
        dsimp only at h2
        subst hes₂
        by_cases hms₂ : ms₂.length ≠ 0
        · rw [if_pos hms₂] at h2
          exact absurd h2 (by simp)
        · by_cases hex₂ : ex₂.length ≠ 0
          · rw [if_neg hms₂, if_pos hex₂] at h2
            exact absurd h2 (by simp)
          · rw [if_neg hms₂, if_neg hex₂,
              if_neg (fun hcon => hcon hfil₁)] at h2
            injection h2 with h2e
            exact h2e.symm
  cases hloop₁ : update_loop rn dn defaults args allowed s (dn ++ rn) with
  | error e => rw [hloop₁] at h1; exact absurd h1 (by simp)
  | ok tri₁ =>
      obtain ⟨es, ex, ms⟩ := tri₁
      rw [hloop₁] at h1
      dsimp only at h1
      by_cases hms : ms.length ≠ 0
      · rw [if_pos hms] at h1
        exact absurd h1 (by simp)
      · by_cases hex : ex.length ≠ 0
        · rw [if_neg hms, if_pos hex] at h1
          exact absurd h1 (by simp)
        · rw [if_neg hms, if_neg hex] at h1
          have hms0 : ms = [] := by
            simpa using hms
          obtain ⟨hf₁, hdrain₁⟩ := update_loop_forall2 rn dn defaults args
            allowed s (dn ++ rn) es ex ms hloop₁
          obtain ⟨hfix, hkeys_es, hnames_es, hwn_t⟩ :=
            forall2_upd_facts rn dn defaults s es hf₁
          have hwn_es := hwn_t hwn
          have hdrain0 : loop_drain args allowed
              (s.map (fun p => p.2.name)) (dn ++ rn) = [] :=
            hdrain₁.symm.trans hms0
          have hsplit : args = rn ++ dn := by
            rw [hrn, hdn]
            by_cases hd0 : defaults.length ≠ 0
            · rw [if_pos hd0, if_pos hd0, List.take_append_drop]
            · rw [if_neg hd0, if_neg hd0, List.append_nil]
          have hpres : ∀ a ∈ args, dget es a ≠ Option.none := by
            intro a ha
            have h₁ : a ∈ dn ++ rn := by
              rw [hsplit] at ha
              rcases List.mem_append.mp ha with h | h
              · exact List.mem_append_right _ h
              · exact List.mem_append_left _ h
            have h₂ : a ∈ s.map (fun p => p.2.name) :=
              loop_drain_nil_mem args allowed _ _ hdrain0 a h₁
            have h₃ : a ∈ es.map (fun p => p.2.name) := by
              rw [hnames_es]
              exact h₂
            have h₄ : a ∈ dkeys es := by
              rw [show dkeys es = es.map (fun p => p.2.name) from
                List.map_congr_left hwn_es]
              exact h₃
            obtain ⟨v, hv⟩ := dget_some_of_contains es a
              (by simpa [dcontains] using h₄)
            simp [hv]
          by_cases hfil : (dkeys es).filter (fun k => args.contains k) ≠ args
          · rw [if_pos hfil] at h1
            injection h1 with h1e
            subst h1e
            have hkeys₁ : dkeys (args.foldl (reorder_step es) []) = args := by
              have := reorder_fold_keys_args es args [] hnd hpres
                (fun a _ => rfl)
              simpa using this
            obtain ⟨tail, htail, htaildis⟩ := reorder_fold_keys_allowed es
              allowed (args.foldl (reorder_step es) [])
            have hkeys_s₁ : dkeys (reorder_schema es args allowed)
                = args ++ tail := by
              rw [reorder_schema, htail, hkeys₁]
            have htail_args : ∀ t ∈ tail, args.contains t = false := by
              intro t ht
              have hh := htaildis t ht
              rw [dcontains, hkeys₁] at hh
              exact hh
            apply main
            · intro p hp
              exact hfix p (reorder_pairs_sub es args allowed p hp)
            · rw [hkeys_s₁, List.filter_append]
              have e1 : args.filter (fun k => args.contains k) = args :=
                List.filter_eq_self.mpr (fun a ha => by simpa using ha)
              have e2 : tail.filter (fun k => args.contains k) = [] := by
                rw [List.filter_eq_nil_iff]
                intro t ht
                simpa using htail_args t ht
              rw [e1, e2, List.append_nil]
          · rw [if_neg hfil] at h1
            injection h1 with h1e
            subst h1e
            exact main hfix (not_not.mp hfil)

/-- A two-entry schema declared in the opposite order of its constructor
signature `(self, b, a)` with one defaulted parameter. -/
def c8_schema : Schema :=
  [("a", .mk "a" true .none .none Option.none Option.none Option.none []),
   ("b", .mk "b" false (.single .pyStr) .none Option.none Option.none
     (some "h") [])]

/-- The reconciled form of `c8_schema`: reordered to signature order, with
`required`/`default` recomputed from the signature. -/
def c8_schema_upd : Schema :=
  [("b", .mk "b" true (.single .pyStr) .none Option.none Option.none
     (some "h") []),
   ("a", .mk "a" false .none (.int 7) Option.none Option.none Option.none [])]

theorem c8_update_schema_idempotent_witness : c8_schema_upd = c8_schema_upd :=
  c8_update_schema_idempotent c8_schema ["self", "b", "a"] [.int 7] []
    c8_schema_upd c8_schema_upd (by decide) (by decide) (by decide) (by decide)
